import Mathlib

/-!
# Verification of the libsignal-node Double-Ratchet core

A shallow embedding, in Lean 4, of the session engine of the
`@raphaelvserafim/libsignal` TypeScript repository, together with theorems
settling a list of claims about it.

Conventions of the embedding:
* `Bytes` (`List Nat`) stands for Node `Buffer`s; each element is one byte.
* JS numbers that hold counters/timestamps are modelled as `Int`
  (counters start at `-1`, `closed` can be `-1`).
* The HMAC-SHA256 primitive (`crypto.createHmac('sha256', …)`) and the X25519
  agreement (`curve.calculateAgreement`) are platform primitives that live
  outside the repository; they are passed in as explicit function parameters
  `hmac : Bytes → Bytes → Bytes` (key, then data) and
  `dh : Bytes → Bytes → Bytes` (public key, then private key).
* Fallible code returns `Except SigError _`; JS `throw` becomes `.error`.
* JS objects used as string-keyed maps become association lists.  The chain
  map of a `SessionEntry` is keyed in JS by `key.toString('base64')`; since
  base64 encoding of buffers is injective, the model keys it by the raw bytes.
-/

namespace Libsignal

/-- Node `Buffer`s, one `Nat` per byte. -/
abbrev Bytes := List Nat

/-- Errors thrown by the library (`src/utils/errors.ts` plus built-in JS
error classes).  The `String` payload is the JS error message. -/
inductive SigError where
  | sessionError (msg : String)
  | messageCounterError (msg : String)
  | typeError (msg : String)
  | referenceError (msg : String)
  | jsError (msg : String)
  deriving Repr, DecidableEq

/-- `BaseKeyType` from `src/types/index.ts` (`OURS = 1, THEIRS = 2`). -/
inductive BaseKeyType where
  | ours
  | theirs
  deriving Repr, DecidableEq

/-- `ChainType` from `src/types/index.ts` (`SENDING = 1, RECEIVING = 2`). -/
inductive ChainType where
  | sending
  | receiving
  deriving Repr, DecidableEq

/-- A key pair `{ pubKey, privKey }`. -/
structure KeyPair where
  pubKey : Bytes
  privKey : Bytes
  deriving Repr, DecidableEq

/-- `ChainKey`: counter (starts at `-1`) and an optional 32-byte key;
`none` models the JS field being `undefined`/deleted (chain closed). -/
structure ChainKey where
  counter : Int
  key : Option Bytes
  deriving Repr, DecidableEq

/-- A ratchet chain: chain key, chain type, and the skipped/stored message
keys, a JS object keyed by the (integer) message counter. -/
structure Chain where
  chainKey : ChainKey
  chainType : ChainType
  messageKeys : List (Int × Bytes)
  deriving Repr, DecidableEq

/-- `currentRatchet` of a session entry. -/
structure CurrentRatchet where
  ephemeralKeyPair : KeyPair
  lastRemoteEphemeralKey : Bytes
  previousCounter : Int
  rootKey : Bytes
  deriving Repr, DecidableEq

/-- `indexInfo` of a session entry. -/
structure IndexInfo where
  baseKey : Bytes
  baseKeyType : BaseKeyType
  closed : Int
  used : Int
  created : Int
  remoteIdentityKey : Bytes
  deriving Repr, DecidableEq

/-- `pendingPreKey` of an outbound initiator session. -/
structure PendingPreKey where
  signedKeyId : Nat
  baseKey : Bytes
  preKeyId : Option Nat
  deriving Repr, DecidableEq

/-- One Double-Ratchet session state (`SessionEntry`,
`src/protocol/session-entry.ts`).  `chains` is the `_chains` object; in JS it
is keyed by `key.toString('base64')`, here by the raw key bytes. -/
structure SessionEntry where
  registrationId : Nat
  currentRatchet : CurrentRatchet
  indexInfo : IndexInfo
  chains : List (Bytes × Chain)
  pendingPreKey : Option PendingPreKey
  deriving Repr, DecidableEq

/-! ## Association-list primitives mirroring JS object semantics

Lookup finds the (unique) binding; assignment to an existing key updates the
value in place (preserving position); assignment to a fresh string key appends
it in insertion order; `delete` removes the binding. -/

/-- Lookup in a JS object viewed as an association list. -/
def alistLookup {β : Type} (l : List (Bytes × β)) (k : Bytes) : Option β :=
  match l with
  | [] => none
  | (k', v) :: rest => if k' = k then some v else alistLookup rest k

/-- In-place update of the value stored at key `k` (a JS property write on an
existing key keeps its position in the object). -/
def alistUpdate {β : Type} : List (Bytes × β) → Bytes → β → List (Bytes × β)
  | [], _, _ => []
  | (k', v') :: rest, k, v =>
    (if k' = k then (k, v) else (k', v')) :: alistUpdate rest k v

/-- `delete obj[k]`: removes the binding for `k`. -/
def alistErase {β : Type} (l : List (Bytes × β)) (k : Bytes) : List (Bytes × β) :=
  l.filter fun p => p.1 ≠ k

/-- JS object write for message-key maps keyed by an integer: update in place
if present, append otherwise. -/
def mkInsert (l : List (Int × Bytes)) (k : Int) (v : Bytes) : List (Int × Bytes) :=
  match l with
  | [] => [(k, v)]
  | (k', v') :: rest =>
    if k' = k then (k, v) :: rest else (k', v') :: mkInsert rest k v

/-- Lookup in a message-key map. -/
def mkLookup (l : List (Int × Bytes)) (k : Int) : Option Bytes :=
  match l with
  | [] => none
  | (k', v) :: rest => if k' = k then some v else mkLookup rest k

/-! ## SessionEntry chain operations (`src/protocol/session-entry.ts`)

`getChain` returns the live chain object (callers mutate it through the
reference; the model threads the updated entry explicitly via `alistUpdate`).
`addChain` refuses to overwrite; `deleteChain` requires the key to exist. -/

/-- `SessionEntry.getChain`. -/
def SessionEntry.getChain (s : SessionEntry) (key : Bytes) : Option Chain :=
  alistLookup s.chains key

/-- `SessionEntry.addChain`: `throw new Error("Overwrite attempt")` when the
key is present, otherwise stores the chain (insertion order). -/
def SessionEntry.addChain (s : SessionEntry) (key : Bytes) (value : Chain) :
    Except SigError SessionEntry :=
  match alistLookup s.chains key with
  | some _ => .error (.jsError "Overwrite attempt")
  | none => .ok { s with chains := s.chains ++ [(key, value)] }

/-- `SessionEntry.deleteChain`: `throw new ReferenceError("Not Found")` when
the key is absent, otherwise removes the binding. -/
def SessionEntry.deleteChain (s : SessionEntry) (key : Bytes) :
    Except SigError SessionEntry :=
  match alistLookup s.chains key with
  | none => .error (.referenceError "Not Found")
  | some _ => .ok { s with chains := alistErase s.chains key }

/-- Write back the (mutated) chain object obtained from `getChain`. -/
def SessionEntry.putChain (s : SessionEntry) (key : Bytes) (c : Chain) :
    SessionEntry :=
  { s with chains := alistUpdate s.chains key c }

/-! ## Crypto module (`src/crypto/index.ts`) -/

/-- `array.set(v, offset)` on a fixed-size typed array: overwrite the bytes
starting at `offset` with `v`. -/
def setAt (arr : Bytes) (offset : Nat) (v : Bytes) : Bytes :=
  arr.take offset ++ v ++ arr.drop (offset + v.length)

/-- `crypto.deriveSecrets(input, salt, info, chunks?)`: HKDF-like derivation.
The `chunks` parameter is optional; JS evaluates `chunks = chunks || 3`, so an
omitted, zero or `NaN` argument becomes `3`.  `hmac key data` stands for
`calculateMAC(key, data)` = HMAC-SHA256. -/
def deriveSecrets (hmac : Bytes → Bytes → Bytes) (input salt info : Bytes)
    (chunks? : Option Int) : Except SigError (List Bytes) :=
  if salt.length ≠ 32 then
    .error (.jsError "Got salt of incorrect length")
  else
    let chunks : Int := match chunks? with
      | none => 3
      | some c => if c = 0 then 3 else c
    if chunks < 1 ∨ chunks > 3 then
      .error (.jsError "Chunks must be between 1 and 3")
    else
      let PRK := hmac salt input
      -- infoArray has length info.length + 1 + 32, with info at offset 32
      let infoArray₀ := setAt (List.replicate (info.length + 1 + 32) 0) 32 info
      let infoArray₁ := setAt infoArray₀ (infoArray₀.length - 1) [1]
      let T₁ := hmac PRK (infoArray₁.drop 32)
      let signed₁ := [T₁]
      if chunks > 1 then
        let infoArray₂ := setAt (setAt infoArray₁ 0 T₁) (infoArray₁.length - 1) [2]
        let T₂ := hmac PRK infoArray₂
        let signed₂ := signed₁ ++ [T₂]
        if chunks > 2 then
          let infoArray₃ := setAt (setAt infoArray₂ 0 T₂) (infoArray₂.length - 1) [3]
          let T₃ := hmac PRK infoArray₃
          .ok (signed₂ ++ [T₃])
        else .ok signed₂
      else .ok signed₁

/-! ## The claim-side HKDF formulas

`hkdfT1/T2/T3` are written from the claim's description (`PRK = HMAC(salt,
input)`, `T1 = HMAC(PRK, info ‖ 0x01)`, `T_i = HMAC(PRK, T_(i-1) ‖ info ‖ i)`)
to be compared against `deriveSecrets` above, which is translated from the
source. -/

/-- First HKDF chunk, per the claim: `HMAC(PRK, info ‖ 0x01)`. -/
def hkdfT1 (hmac : Bytes → Bytes → Bytes) (input salt info : Bytes) : Bytes :=
  hmac (hmac salt input) (info ++ [1])

/-- Second HKDF chunk, per the claim: `HMAC(PRK, T1 ‖ info ‖ 0x02)`. -/
def hkdfT2 (hmac : Bytes → Bytes → Bytes) (input salt info : Bytes) : Bytes :=
  hmac (hmac salt input) (hkdfT1 hmac input salt info ++ info ++ [2])

/-- Third HKDF chunk, per the claim: `HMAC(PRK, T2 ‖ info ‖ 0x03)`. -/
def hkdfT3 (hmac : Bytes → Bytes → Bytes) (input salt info : Bytes) : Bytes :=
  hmac (hmac salt input) (hkdfT2 hmac input salt info ++ info ++ [3])

/-! ## SessionCipher: the symmetric ratchet (`fillMessageKeys`)

`SessionCipher.fillMessageKeys(chain, counter)` first rejects a negative or
non-integer `counter` with a `TypeError`, so the target counter is a `Nat`.
The `while` loop is translated by structural recursion on the remaining gap:
the loop body raises only on its first iteration (the gap shrinks and the
chain key, once present, stays present), so the `Except` translation is
observationally identical to the mutating JS loop. -/

/-- Loop body/condition of `fillMessageKeys`; `steps` bounds the number of
remaining iterations and is fixed to the full gap by the wrapper below. -/
def fillMessageKeysAux (hmac : Bytes → Bytes → Bytes) (chain : Chain)
    (counter : Nat) : Nat → Except SigError Chain
  | 0 => .ok chain
  | steps + 1 =>
    if chain.chainKey.counter < (counter : Int) then
      if (counter : Int) - chain.chainKey.counter > 2000 then
        .error (.sessionError "Over 2000 messages into the future!")
      else
        match chain.chainKey.key with
        | none => .error (.sessionError "Chain closed")
        | some key =>
          fillMessageKeysAux hmac
            { chain with
              chainKey := { counter := chain.chainKey.counter + 1,
                            key := some (hmac key [2]) },
              messageKeys :=
                mkInsert chain.messageKeys (chain.chainKey.counter + 1)
                  (hmac key [1]) }
            counter steps
    else .ok chain

/-- `SessionCipher.fillMessageKeys(chain, counter)` from
`src/protocol/session-cipher.ts`. -/
def fillMessageKeys (hmac : Bytes → Bytes → Bytes) (chain : Chain)
    (counter : Nat) : Except SigError Chain :=
  fillMessageKeysAux hmac chain counter ((counter : Int) - chain.chainKey.counter).toNat

/-- Claim-side description of the successful loop: repeatedly store
`message_keys[counter+1] = HMAC(key, [0x01])`, replace the chain key with
`HMAC(key, [0x02])` and increment the counter, until the counter equals the
target.  Written from the claim's words, for comparison with
`fillMessageKeys`. -/
def advanceChainAux (hmac : Bytes → Bytes → Bytes) (chain : Chain)
    (counter : Nat) : Nat → Chain
  | 0 => chain
  | steps + 1 =>
    if chain.chainKey.counter < (counter : Int) then
      match chain.chainKey.key with
      | none => chain
      | some key =>
        advanceChainAux hmac
          { chain with
            chainKey := { counter := chain.chainKey.counter + 1,
                          key := some (hmac key [2]) },
            messageKeys :=
              mkInsert chain.messageKeys (chain.chainKey.counter + 1)
                (hmac key [1]) }
          counter steps
    else chain

/-- Wrapper fixing the iteration count of `advanceChainAux` to the gap. -/
def advanceChain (hmac : Bytes → Bytes → Bytes) (chain : Chain)
    (counter : Nat) : Chain :=
  advanceChainAux hmac chain counter ((counter : Int) - chain.chainKey.counter).toNat

/-! ## Concrete stand-ins for the external crypto primitives

Used by witnesses and counterexamples; any function of the right type works,
these are chosen to be cheaply kernel-evaluable with 32-byte outputs. -/

/-- A concrete 32-byte-output function standing in for HMAC-SHA256. -/
def hmacC (key data : Bytes) : Bytes :=
  List.replicate 31 0 ++ [(key.sum * 3 + data.sum * 7 + data.length) % 251]

/-- A concrete 32-byte-output function standing in for X25519 agreement. -/
def dhC (pub priv : Bytes) : Bytes :=
  List.replicate 31 1 ++ [(pub.sum * 5 + priv.sum * 11 + 1) % 241]

/-! ## SessionRecord (`src/protocol/session-record.ts`)

The record's `sessions` object is keyed in JS by `baseKey.toString('base64')`;
since base64 is injective on buffers the model keys it by the raw base-key
bytes, in insertion order. -/

/-- A session record. -/
structure SessionRecord where
  sessions : List (Bytes × SessionEntry)
  version : String
  deriving Repr, DecidableEq

/-- `CLOSED_SESSIONS_MAX` from `src/constants/index.ts`. -/
def CLOSED_SESSIONS_MAX : Nat := 40

/-- `SessionRecord.getSession(key)`: looks the session up under the base key;
raises when the stored session has `baseKeyType === BaseKeyType.OURS`.  (The
defensive `indexInfo` integrity check of the source is unrepresentable here
because `indexInfo.baseKeyType` is total in the typed model.) -/
def SessionRecord.getSession (r : SessionRecord) (key : Bytes) :
    Except SigError (Option SessionEntry) :=
  match alistLookup r.sessions key with
  | none => .ok none
  | some session =>
    if session.indexInfo.baseKeyType = BaseKeyType.ours then
      .error (.jsError "Tried to lookup a session using our basekey")
    else .ok (some session)

/-- The eviction filter of `removeOldSessions`: the JS condition
`session.indexInfo?.closed && session.indexInfo.closed !== -1` — note the
truthiness test, which also excludes a `closed` timestamp of `0`. -/
def removableClosed (s : SessionEntry) : Bool :=
  decide (s.indexInfo.closed ≠ 0) && decide (s.indexInfo.closed ≠ -1)

/-- Stable insertion of an entry into a list sorted by ascending `closed`
(equal timestamps keep their original relative order, as JS `sort` is
stable with the comparator `a.closedTime - b.closedTime`). -/
def insertByClosed (p : Bytes × SessionEntry) :
    List (Bytes × SessionEntry) → List (Bytes × SessionEntry)
  | [] => [p]
  | q :: rest =>
    if p.2.indexInfo.closed < q.2.indexInfo.closed then p :: q :: rest
    else q :: insertByClosed p rest

/-- Stable sort by ascending `closed` timestamp. -/
def sortByClosed : List (Bytes × SessionEntry) → List (Bytes × SessionEntry)
  | [] => []
  | p :: rest => insertByClosed p (sortByClosed rest)

/-- Delete the bindings for the listed keys, in order (`delete
this.sessions[key]` in the removal loop). -/
def removeKeys (l : List (Bytes × SessionEntry)) (ks : List Bytes) :
    List (Bytes × SessionEntry) :=
  ks.foldl (fun acc k => alistErase acc k) l

/-- `SessionRecord.removeOldSessions()` from `src/protocol/session-record.ts`:
when more than `CLOSED_SESSIONS_MAX` sessions exist, collect the sessions
whose `closed` is truthy and not `-1`, sort them by ascending `closed`, and
delete the first `min(count - 40, closedCount)` of them; if none qualify it
only warns and returns. -/
def SessionRecord.removeOldSessions (r : SessionRecord) : SessionRecord :=
  let sessionCount := r.sessions.length
  if sessionCount ≤ CLOSED_SESSIONS_MAX then r
  else
    let closedSessions := r.sessions.filter (fun p => removableClosed p.2)
    if closedSessions = [] then r
    else
      let sorted := sortByClosed closedSessions
      let actualToRemove := min (sessionCount - CLOSED_SESSIONS_MAX) closedSessions.length
      { r with sessions := removeKeys r.sessions ((sorted.take actualToRemove).map Prod.fst) }

/-- A small concrete session entry for witnesses and counterexamples. -/
def entryW (bkType : BaseKeyType) (closed : Int) (k : Bytes) : SessionEntry :=
  { registrationId := 1
    currentRatchet :=
      { ephemeralKeyPair := ⟨[5, 1], [2]⟩
        lastRemoteEphemeralKey := [5, 3]
        previousCounter := 0
        rootKey := List.replicate 32 0 }
    indexInfo :=
      { baseKey := k, baseKeyType := bkType, closed := closed, used := 1,
        created := 1, remoteIdentityKey := [5, 9] }
    chains := []
    pendingPreKey := none }

/-- A record holding 41 sessions all carrying the degenerate `closed = 0`
timestamp (reachable through `SessionEntry.deserialize`, which accepts any
stored `closed`). -/
def recordC2 : SessionRecord :=
  ⟨(List.range 41).map (fun i => ([i], entryW .theirs 0 [i])), "v1"⟩

/-! ## ProtocolAddress (`src/protocol/protocol-address.ts`)

Strings are modelled as `List Char`.  The JS regex `^.+\.\d+$` (no `m`/`s`
flags) matches exactly the strings of the form `A ++ "." ++ D` where `A` is a
nonempty run of non-line-terminator characters and `D` a nonempty run of
decimal digits; since `D` cannot contain a dot, the split of any match is
necessarily at the LAST dot, so the test is decided on the last-dot split. -/

/-- JS line terminators, which `.` in a regex does not match. -/
def isLineTerm (c : Char) : Bool :=
  c = '\n' || c = '\r' || c.toNat = 0x2028 || c.toNat = 0x2029

/-- JS whitespace recognised by `String.prototype.trim`. -/
def isJsWhitespace (c : Char) : Bool :=
  c = ' ' || c = '\t' || c = '\n' || c = '\r' ||
  c.toNat = 0x0b || c.toNat = 0x0c || c.toNat = 0xa0 || c.toNat = 0xfeff

/-- `encoded.trim()`. -/
def jsTrim (s : List Char) : List Char :=
  ((s.dropWhile isJsWhitespace).reverse.dropWhile isJsWhitespace).reverse

/-- Split a string at its LAST `'.'` (`lastIndexOf('.')` followed by the two
`substring` calls), if any dot exists. -/
def splitLastDot (s : List Char) : Option (List Char × List Char) :=
  match s with
  | [] => none
  | c :: rest =>
    match splitLastDot rest with
    | some (b, a) => some (c :: b, a)
    | none => if c = '.' then some ([], rest) else none

/-- The test `encodedAddress.match(/^.+\.\d+$/)` (see the section comment for
why it is decided at the last-dot split). -/
def matchesAddrRegex (s : List Char) : Bool :=
  match splitLastDot s with
  | none => false
  | some (b, a) =>
    (!b.isEmpty) && b.all (fun c => !(isLineTerm c)) &&
    (!a.isEmpty) && a.all Char.isDigit

/-- The numeric value `parseInt(deviceIdStr, 10)` of an all-digit string,
computed exactly.  (`parseInt` returns a float; an integer value at most
`Number.MAX_SAFE_INTEGER` is represented exactly, and any larger integer
rounds to a float still exceeding it, so the exact value decides the
subsequent `> MAX_SAFE_INTEGER` check.) -/
def digitsToNat (a : List Char) : Nat :=
  a.foldl (fun n c => n * 10 + (c.toNat - 48)) 0

/-- An address value `(id, deviceId)`. -/
structure ProtocolAddress where
  id : List Char
  deviceId : Nat
  deriving Repr, DecidableEq

/-- The `ProtocolAddress` constructor.  Inputs are typed (`id` a string,
`deviceId` an integer), so the `typeof`/`isNaN`/`isFinite`/`isInteger` guards
of the source are unrepresentable; the remaining guards are translated in
source order: empty id, id containing a dot, negative, above
`Number.MAX_SAFE_INTEGER`.  On success the stored id is `id.trim()`. -/
def protocolAddressNew (id : List Char) (deviceId : Int) :
    Except SigError ProtocolAddress :=
  if (jsTrim id).isEmpty then
    .error (.typeError "id cannot be empty")
  else if id.contains '.' then
    .error (.typeError "id cannot contain dots")
  else if deviceId < 0 then
    .error (.typeError "deviceId must be non-negative")
  else if deviceId > 9007199254740991 then
    .error (.typeError "deviceId exceeds maximum safe integer")
  else .ok ⟨jsTrim id, deviceId.toNat⟩

/-- `ProtocolAddress.from(encodedAddress)` (the canonical copy, which splits
on the LAST dot).  The `isNaN`/negative/finite guards on the parsed device id
are dead for all-digit strings and are omitted; the final step delegates to
the constructor, exactly as `return new this(id, deviceId)` does. -/
def protocolAddressFrom (encoded : List Char) : Except SigError ProtocolAddress :=
  if (jsTrim encoded).isEmpty then
    .error (.jsError "encodedAddress cannot be empty")
  else if ¬ matchesAddrRegex encoded then
    .error (.jsError "Invalid address encoding: must be in format id.deviceId")
  else
    match splitLastDot encoded with
    | none => .error (.jsError "Invalid address encoding: must be in format id.deviceId")
    | some (idPart, devPart) =>
      if (jsTrim idPart).isEmpty then
        .error (.jsError "Invalid address encoding: id cannot be empty")
      else if (digitsToNat devPart : Int) > 9007199254740991 then
        .error (.jsError "Invalid address encoding: deviceId exceeds maximum safe integer")
      else protocolAddressNew idPart (digitsToNat devPart)

/-! ## SessionCipher.encrypt: the pre-queue prefix (`src/protocol/session-cipher.ts`)

`encrypt(data)` validates its argument before anything else: a non-Buffer
argument throws `TypeError("data must be a Buffer")` and an empty Buffer
throws `Error("data cannot be empty")`; only then does it call
`storage.getOurIdentity()` and submit the queued job that loads, mutates and
stores the session record.  The model records the externally visible actions
in order; the queued body — the only place record operations happen — is
abstracted by the `jobActs` parameter. -/

/-- Externally visible actions of `encrypt` relevant to C10. -/
inductive CipherAction where
  | getOurIdentity
  | queueJob
  | loadSession
  | storeSession
  deriving Repr, DecidableEq

/-- The entry of `SessionCipher.encrypt(data)`: argument validation, identity
fetch, then job submission.  Returns the performed actions and the raised
error, if any. -/
def encryptEntry (isBuffer : Bool) (dataLen : Nat) (identityPresent : Bool)
    (jobActs : List CipherAction) : List CipherAction × Option SigError :=
  if ¬ isBuffer then
    ([], some (.typeError "data must be a Buffer"))
  else if dataLen = 0 then
    ([], some (.jsError "data cannot be empty"))
  else if ¬ identityPresent then
    ([.getOurIdentity], some (.sessionError "Missing our identity key"))
  else
    ([.getOurIdentity, .queueJob] ++ jobActs, none)

/-! ## Base64 (Node `buf.toString('base64')` / `Buffer.from(s, 'base64')`)

Standard alphabet with `=` padding, processing three bytes per four output
characters, as Node produces it.  The decoder is written with explicit
padding tests (equivalent to matching the padded group shapes) and only needs
to be right on encoder outputs. -/

/-- The standard base64 alphabet. -/
def b64Alphabet : List Char :=
  "ABCDEFGHIJKLMNOPQRSTUVWXYZabcdefghijklmnopqrstuvwxyz0123456789+/".toList

/-- Character for a 6-bit value. -/
def b64Char (n : Nat) : Char := b64Alphabet.getD n 'A'

/-- 6-bit value of an alphabet character. -/
def b64Index (c : Char) : Nat := b64Alphabet.indexOf c

/-- Base64 encoding of a byte list. -/
def b64Encode : List Nat → List Char
  | [] => []
  | [a] => [b64Char (a / 4), b64Char (a % 4 * 16), '=', '=']
  | [a, b] => [b64Char (a / 4), b64Char (a % 4 * 16 + b / 16),
               b64Char (b % 16 * 4), '=']
  | a :: b :: d :: rest =>
    b64Char (a / 4) :: b64Char (a % 4 * 16 + b / 16) ::
    b64Char (b % 16 * 4 + d / 64) :: b64Char (d % 64) :: b64Encode rest

/-- Base64 decoding of an encoded character list. -/
def b64Decode : List Char → List Nat
  | x :: y :: z :: w :: rest =>
    if z = '=' then [b64Index x * 4 + b64Index y / 16]
    else if w = '=' then
      [b64Index x * 4 + b64Index y / 16, b64Index y % 16 * 16 + b64Index z / 4]
    else
      (b64Index x * 4 + b64Index y / 16) ::
      (b64Index y % 16 * 16 + b64Index z / 4) ::
      (b64Index z % 4 * 64 + b64Index w) :: b64Decode rest
  | _ => []

/-- Validity of a byte list (every entry fits in one byte). -/
def validBytes (b : Bytes) : Bool := b.all (fun x => x < 256)

/-! ## Serialized SessionEntry (`src/protocol/session-entry.ts`)

The serialized tree produced by `SessionEntry.serialize`: every byte field is
base64-encoded; the chain map keys (already base64 in the JS `_chains`
object) are passed through; `chainKey.key` may be absent (`null`), rendered
by `c.chainKey.key && c.chainKey.key.toString('base64')`.  On `deserialize`,
`c.chainKey.key && Buffer.from(c.chainKey.key, 'base64')` leaves a FALSY
value — in particular the empty string — as it is, so an empty serialized key
stays absent in the model. -/

/-- Serialized key pair. -/
structure SerializedKeyPair where
  pubKey : List Char
  privKey : List Char
  deriving Repr, DecidableEq

/-- Serialized `currentRatchet`. -/
structure SerializedRatchet where
  ephemeralKeyPair : SerializedKeyPair
  lastRemoteEphemeralKey : List Char
  previousCounter : Int
  rootKey : List Char
  deriving Repr, DecidableEq

/-- Serialized `indexInfo`. -/
structure SerializedIndexInfo where
  baseKey : List Char
  baseKeyType : BaseKeyType
  closed : Int
  used : Int
  created : Int
  remoteIdentityKey : List Char
  deriving Repr, DecidableEq

/-- Serialized chain key. -/
structure SerializedChainKey where
  counter : Int
  key : Option (List Char)
  deriving Repr, DecidableEq

/-- Serialized chain. -/
structure SerializedChain where
  chainKey : SerializedChainKey
  chainType : ChainType
  messageKeys : List (Int × List Char)
  deriving Repr, DecidableEq

/-- Serialized pending pre-key. -/
structure SerializedPendingPreKey where
  signedKeyId : Nat
  baseKey : List Char
  preKeyId : Option Nat
  deriving Repr, DecidableEq

/-- The serialized entry tree. -/
structure SerializedEntry where
  registrationId : Nat
  currentRatchet : SerializedRatchet
  indexInfo : SerializedIndexInfo
  chains : List (List Char × SerializedChain)
  pendingPreKey : Option SerializedPendingPreKey
  deriving Repr, DecidableEq

/-- One chain of `_serialize_chains`. -/
def serializeChain (c : Chain) : SerializedChain :=
  { chainKey := { counter := c.chainKey.counter,
                  key := c.chainKey.key.map b64Encode },
    chainType := c.chainType,
    messageKeys := c.messageKeys.map (fun p => (p.1, b64Encode p.2)) }

/-- One chain of `_deserialize_chains`; an absent or falsy (empty) stored key
yields no chain key. -/
def deserializeChain (c : SerializedChain) : Chain :=
  { chainKey := { counter := c.chainKey.counter,
                  key := match c.chainKey.key with
                         | none => none
                         | some s => if s.isEmpty then none else some (b64Decode s) },
    chainType := c.chainType,
    messageKeys := c.messageKeys.map (fun p => (p.1, b64Decode p.2)) }

/-- `SessionEntry.serialize()`. -/
def serializeEntry (e : SessionEntry) : SerializedEntry :=
  { registrationId := e.registrationId,
    currentRatchet :=
      { ephemeralKeyPair :=
          { pubKey := b64Encode e.currentRatchet.ephemeralKeyPair.pubKey,
            privKey := b64Encode e.currentRatchet.ephemeralKeyPair.privKey },
        lastRemoteEphemeralKey := b64Encode e.currentRatchet.lastRemoteEphemeralKey,
        previousCounter := e.currentRatchet.previousCounter,
        rootKey := b64Encode e.currentRatchet.rootKey },
    indexInfo :=
      { baseKey := b64Encode e.indexInfo.baseKey,
        baseKeyType := e.indexInfo.baseKeyType,
        closed := e.indexInfo.closed,
        used := e.indexInfo.used,
        created := e.indexInfo.created,
        remoteIdentityKey := b64Encode e.indexInfo.remoteIdentityKey },
    chains := e.chains.map (fun p => (b64Encode p.1, serializeChain p.2)),
    pendingPreKey := e.pendingPreKey.map (fun pk =>
      { signedKeyId := pk.signedKeyId,
        baseKey := b64Encode pk.baseKey,
        preKeyId := pk.preKeyId }) }

/-- `SessionEntry.deserialize(data)`. -/
def deserializeEntry (d : SerializedEntry) : SessionEntry :=
  { registrationId := d.registrationId,
    currentRatchet :=
      { ephemeralKeyPair :=
          { pubKey := b64Decode d.currentRatchet.ephemeralKeyPair.pubKey,
            privKey := b64Decode d.currentRatchet.ephemeralKeyPair.privKey },
        lastRemoteEphemeralKey := b64Decode d.currentRatchet.lastRemoteEphemeralKey,
        previousCounter := d.currentRatchet.previousCounter,
        rootKey := b64Decode d.currentRatchet.rootKey },
    indexInfo :=
      { baseKey := b64Decode d.indexInfo.baseKey,
        baseKeyType := d.indexInfo.baseKeyType,
        closed := d.indexInfo.closed,
        used := d.indexInfo.used,
        created := d.indexInfo.created,
        remoteIdentityKey := b64Decode d.indexInfo.remoteIdentityKey },
    chains := d.chains.map (fun p => (b64Decode p.1, deserializeChain p.2)),
    pendingPreKey := d.pendingPreKey.map (fun pk =>
      { signedKeyId := pk.signedKeyId,
        baseKey := b64Decode pk.baseKey,
        preKeyId := pk.preKeyId }) }

/-- Validity of a chain for the round trip: a present chain key is a nonempty
byte list (an empty Buffer key would serialize to the falsy empty string),
and all byte lists are in range. -/
def validChain (c : Chain) : Bool :=
  (match c.chainKey.key with
   | none => true
   | some k => !k.isEmpty && validBytes k) &&
  c.messageKeys.all (fun p => validBytes p.2)

/-- Validity of an entry for the round trip. -/
def validEntry (e : SessionEntry) : Bool :=
  validBytes e.currentRatchet.ephemeralKeyPair.pubKey &&
  validBytes e.currentRatchet.ephemeralKeyPair.privKey &&
  validBytes e.currentRatchet.lastRemoteEphemeralKey &&
  validBytes e.currentRatchet.rootKey &&
  validBytes e.indexInfo.baseKey &&
  validBytes e.indexInfo.remoteIdentityKey &&
  e.chains.all (fun p => validBytes p.1 && validChain p.2) &&
  (match e.pendingPreKey with
   | none => true
   | some pk => validBytes pk.baseKey)

/-- A concrete entry exercising chains, skipped keys, an absent chain key and
a pending pre-key, for the C9 witness. -/
def entryC9 : SessionEntry :=
  { registrationId := 123
    currentRatchet :=
      { ephemeralKeyPair := ⟨[5, 200, 1], [7, 255]⟩
        lastRemoteEphemeralKey := [5, 44]
        previousCounter := 3
        rootKey := [1, 2, 3, 4] }
    indexInfo :=
      { baseKey := [5, 77], baseKeyType := .theirs, closed := -1, used := 10,
        created := 9, remoteIdentityKey := [5, 88] }
    chains :=
      [([5, 44], ⟨⟨2, some [17, 18]⟩, .receiving, [(0, [9, 9]), (1, [10])]⟩),
       ([5, 45], ⟨⟨4, none⟩, .receiving, [(2, [11, 12, 13])]⟩)]
    pendingPreKey := some ⟨42, [5, 77], some 7⟩ }

/-! ## SessionCipher ratchet stepping (`src/protocol/session-cipher.ts`)

`curve.generateKeyPair()` is a random primitive; the freshly generated pair
is passed in explicitly (`newKP`).  JS mutates the session and its chains
through live references; the model threads the updated entry, which is
observationally identical because the only fallible sub-steps
(`fillMessageKeys`, `addChain`, `deleteChain`) fail before mutating. -/

/-- UTF-8 bytes of an ASCII info string (`Buffer.from("...")`). -/
def infoBytes (s : String) : Bytes := s.toList.map Char.toNat

/-- `SessionCipher.calculateRatchet(session, remoteKey, sending)`: one root-KDF
step adding a chain (keyed by our ratchet key when sending, by the remote key
when receiving) and replacing the root key. -/
def calculateRatchet (hmac dh : Bytes → Bytes → Bytes) (s : SessionEntry)
    (remoteKey : Bytes) (sending : Bool) : Except SigError SessionEntry := do
  let ratchet := s.currentRatchet
  let sharedSecret := dh remoteKey ratchet.ephemeralKeyPair.privKey
  let masterKey ← deriveSecrets hmac sharedSecret ratchet.rootKey
    (infoBytes "WhisperRatchet") (some 2)
  let s' ← s.addChain (if sending then ratchet.ephemeralKeyPair.pubKey else remoteKey)
    { chainKey := { counter := -1, key := some (masterKey.getD 1 []) },
      chainType := if sending then .sending else .receiving,
      messageKeys := [] }
  return { s' with currentRatchet :=
    { s'.currentRatchet with rootKey := masterKey.getD 0 [] } }

/-- `SessionCipher.maybeStepRatchet(session, remoteKey, previousCounter)`.
A no-op when a chain for `remoteKey` exists; otherwise fills and closes the
previous receiving chain, adds a receiving chain for `remoteKey`, closes out
the previous sending chain (recording its final counter), installs the fresh
ephemeral pair and a new sending chain, and records `remoteKey` as the last
remote ephemeral. -/
def maybeStepRatchet (hmac dh : Bytes → Bytes → Bytes) (newKP : KeyPair)
    (s : SessionEntry) (remoteKey : Bytes) (previousCounter : Nat) :
    Except SigError SessionEntry :=
  if (s.getChain remoteKey).isSome then .ok s
  else do
    let s₁ ← match s.getChain s.currentRatchet.lastRemoteEphemeralKey with
      | some previousRatchet => do
        let filled ← fillMessageKeys hmac previousRatchet previousCounter
        pure (s.putChain s.currentRatchet.lastRemoteEphemeralKey
          { filled with chainKey := { filled.chainKey with key := none } })
      | none => pure s
    let s₂ ← calculateRatchet hmac dh s₁ remoteKey false
    let s₃ ← match s₂.getChain s₂.currentRatchet.ephemeralKeyPair.pubKey with
      | some prevChain =>
        SessionEntry.deleteChain
          { s₂ with currentRatchet :=
            { s₂.currentRatchet with previousCounter := prevChain.chainKey.counter } }
          s₂.currentRatchet.ephemeralKeyPair.pubKey
      | none => pure s₂
    let s₄ := { s₃ with currentRatchet :=
      { s₃.currentRatchet with ephemeralKeyPair := newKP } }
    let s₅ ← calculateRatchet hmac dh s₄ remoteKey true
    return { s₅ with currentRatchet :=
      { s₅.currentRatchet with lastRemoteEphemeralKey := remoteKey } }

/-! ## SessionBuilder.initSession (`src/protocol/session-builder.ts`) -/

/-- The X3DH input buffer built by `initSession`: a `Uint8Array` of 4×32 (or
5×32 when both ephemerals exist) bytes, 0xff in the first block, `a1`/`a2` at
offsets 32/64 (swapped for the responder), `a3` at 96 and, when both
ephemerals exist, `a4` at 128. -/
def builtSharedSecret (dh : Bytes → Bytes → Bytes) (ourIdentity ourSigned : KeyPair)
    (ourEphemeral : Option KeyPair) (theirIdentityPub theirSignedPub : Bytes)
    (theirEphemeralPub : Option Bytes) (isInitiator : Bool) : Bytes :=
  let size := if ourEphemeral.isNone ∨ theirEphemeralPub.isNone then 32 * 4 else 32 * 5
  let ss₀ := setAt (List.replicate size 0) 0 (List.replicate 32 255)
  let a1 := dh theirSignedPub ourIdentity.privKey
  let a2 := dh theirIdentityPub ourSigned.privKey
  let a3 := dh theirSignedPub ourSigned.privKey
  let ss₁ := if isInitiator then setAt (setAt ss₀ 32 a1) 64 a2
             else setAt (setAt ss₀ 64 a1) 32 a2
  let ss₂ := setAt ss₁ 96 a3
  match ourEphemeral, theirEphemeralPub with
  | some oe, some te => setAt ss₂ 128 (dh te oe.privKey)
  | _, _ => ss₂

/-- `SessionBuilder.calculateSendingRatchet(session, remoteKey)` (the
`deriveSecrets` call omits `chunks`, so three chunks are computed; only the
first two are used). -/
def calculateSendingRatchet (hmac dh : Bytes → Bytes → Bytes) (s : SessionEntry)
    (remoteKey : Bytes) : Except SigError SessionEntry := do
  let ratchet := s.currentRatchet
  let sharedSecret := dh remoteKey ratchet.ephemeralKeyPair.privKey
  let masterKey ← deriveSecrets hmac sharedSecret ratchet.rootKey
    (infoBytes "WhisperRatchet") none
  let s' ← s.addChain ratchet.ephemeralKeyPair.pubKey
    { chainKey := { counter := -1, key := some (masterKey.getD 1 []) },
      chainType := .sending, messageKeys := [] }
  return { s' with currentRatchet :=
    { s'.currentRatchet with rootKey := masterKey.getD 0 [] } }

/-- Common tail of `initSession` after the initiator/responder rule
enforcement: build the shared secret, derive the master key (`chunks`
omitted, hence 3), create the entry, and — initiator only — seed the first
sending chain. -/
def initFinish (hmac dh : Bytes → Bytes → Bytes)
    (freshEphemeral : KeyPair) (now : Int) (isInitiator : Bool)
    (ourIdentity : KeyPair) (ourEphemeralKey : Option KeyPair)
    (ourSigned : KeyPair) (theirIdentityPubKey : Bytes)
    (theirEphemeralPubKey : Option Bytes) (tsp baseKey : Bytes)
    (registrationId : Nat) : Except SigError SessionEntry := do
  let sharedSecret := builtSharedSecret dh ourIdentity ourSigned ourEphemeralKey
    theirIdentityPubKey tsp theirEphemeralPubKey isInitiator
  let masterKey ← deriveSecrets hmac sharedSecret (List.replicate 32 0)
    (infoBytes "WhisperText") none
  let session : SessionEntry :=
    { registrationId := registrationId
      currentRatchet :=
        { rootKey := masterKey.getD 0 []
          ephemeralKeyPair := if isInitiator then freshEphemeral else ourSigned
          lastRemoteEphemeralKey := tsp
          previousCounter := 0 }
      indexInfo :=
        { created := now, used := now,
          remoteIdentityKey := theirIdentityPubKey,
          baseKey := baseKey,
          baseKeyType := if isInitiator then .ours else .theirs,
          closed := -1 }
      chains := []
      pendingPreKey := none }
  if isInitiator then calculateSendingRatchet hmac dh session tsp
  else return session

/-- `SessionBuilder.initSession(...)`.  `curve.generateKeyPair()` for the
initiator ratchet key is the explicit `freshEphemeral` parameter; the rule
enforcement and the `ourSignedKey := ourEphemeralKey` /
`theirSignedPubKey := theirEphemeralPubKey` substitutions are translated
verbatim; an absent substituted `theirSignedPubKey` would make
`curve.calculateAgreement` throw on an undefined public key. -/
def initSession (hmac dh : Bytes → Bytes → Bytes)
    (ourIdentity freshEphemeral : KeyPair) (now : Int) (isInitiator : Bool)
    (ourEphemeralKey ourSignedKey : Option KeyPair)
    (theirIdentityPubKey : Bytes)
    (theirEphemeralPubKey theirSignedPubKey : Option Bytes)
    (registrationId : Nat) : Except SigError SessionEntry :=
  if isInitiator then
    match ourSignedKey with
    | some _ =>
      .error (.jsError "Invalid call to initSession: ourSignedKey must be undefined for initiator")
    | none =>
      match ourEphemeralKey with
      | none =>
        .error (.jsError "Invalid call to initSession: ourEphemeralKey is required for initiator")
      | some oe =>
        match theirSignedPubKey with
        | none => .error (.jsError "Invalid public key")
        | some tsp =>
          initFinish hmac dh freshEphemeral now true ourIdentity (some oe) oe
            theirIdentityPubKey theirEphemeralPubKey tsp oe.pubKey registrationId
  else
    match theirSignedPubKey with
    | some _ =>
      .error (.jsError "Invalid call to initSession: theirSignedPubKey must be undefined for receiver")
    | none =>
      match ourSignedKey with
      | none =>
        .error (.jsError "Invalid call to initSession: ourSignedKey is required for receiver")
      | some osk =>
        match theirEphemeralPubKey with
        | none => .error (.jsError "Invalid public key")
        | some tep =>
          initFinish hmac dh freshEphemeral now false ourIdentity ourEphemeralKey osk
            theirIdentityPubKey theirEphemeralPubKey tep tep registrationId

/-- A concrete well-formed session used to exercise `maybeStepRatchet`: one
receiving chain for the last remote ephemeral `[1]` and one sending chain for
our ratchet public key `[2]`. -/
def sessionC4 : SessionEntry :=
  { registrationId := 1
    currentRatchet :=
      { ephemeralKeyPair := ⟨[2], [6]⟩
        lastRemoteEphemeralKey := [1]
        previousCounter := 0
        rootKey := List.replicate 32 7 }
    indexInfo :=
      { baseKey := [9], baseKeyType := .ours, closed := -1, used := 0,
        created := 0, remoteIdentityKey := [8] }
    chains :=
      [([1], ⟨⟨0, some (List.replicate 32 3)⟩, .receiving, []⟩),
       ([2], ⟨⟨0, some (List.replicate 32 4)⟩, .sending, []⟩)]
    pendingPreKey := none }

/-- Claim-side invariant (C5): the chain table has duplicate-free keys, the
chain stored under `currentRatchet.ephemeralKeyPair.pubKey` is a SENDING
chain, and every chain under any other key is a RECEIVING chain.  Written
from the claim's words, for comparison with the sessions the code builds. -/
def oneSending (s : SessionEntry) : Prop :=
  (s.chains.map Prod.fst).Nodup ∧
  (s.getChain s.currentRatchet.ephemeralKeyPair.pubKey).map Chain.chainType =
    some .sending ∧
  ∀ kc ∈ s.chains, kc.1 ≠ s.currentRatchet.ephemeralKeyPair.pubKey →
    kc.2.chainType = .receiving

/-- The amended C5 property for a given HMAC and DH: (i) a responder
`initSession` returns a session with no chains at all (so no SENDING chain
yet); (ii) an initiator `initSession` establishes the one-sending-chain
invariant; (iii) `maybeStepRatchet` preserves the invariant (under the
usual freshness/distinctness side conditions); (iv) writing back a
`fillMessageKeys` result over an existing chain preserves the invariant. -/
def C5Amended (hmac dh : Bytes → Bytes → Bytes) : Prop :=
  (∀ (oi fe : KeyPair) (now : Int) (oek : Option KeyPair) (osk : KeyPair)
    (tip tep : Bytes) (rid : Nat) (s : SessionEntry),
    initSession hmac dh oi fe now false oek (some osk) tip (some tep) none rid =
      .ok s → s.chains = []) ∧
  (∀ (oi fe oe : KeyPair) (now : Int) (tip : Bytes) (tep? : Option Bytes)
    (tsp : Bytes) (rid : Nat) (s : SessionEntry),
    initSession hmac dh oi fe now true (some oe) none tip tep? (some tsp) rid =
      .ok s → oneSending s) ∧
  (∀ (newKP : KeyPair) (s : SessionEntry) (remoteKey : Bytes) (prevCtr : Nat)
    (s' : SessionEntry),
    oneSending s →
    s.currentRatchet.rootKey.length = 32 →
    (∀ p, s.getChain s.currentRatchet.lastRemoteEphemeralKey = some p →
      ∃ p2, fillMessageKeys hmac p prevCtr = .ok p2) →
    s.currentRatchet.lastRemoteEphemeralKey ≠
      s.currentRatchet.ephemeralKeyPair.pubKey →
    newKP.pubKey ∉ s.chains.map Prod.fst →
    newKP.pubKey ≠ remoteKey →
    maybeStepRatchet hmac dh newKP s remoteKey prevCtr = .ok s' →
    oneSending s') ∧
  (∀ (s0 : SessionEntry) (k : Bytes) (c c' : Chain) (ctr : Nat),
    oneSending s0 → s0.getChain k = some c →
    fillMessageKeys hmac c ctr = .ok c' →
    oneSending (s0.putChain k c'))

/-! ## Theorems -/

theorem setAt_block (x y z v : Bytes) (hv : v.length = y.length) :
    setAt (x ++ y ++ z) x.length v = x ++ v ++ z := by
  have h1 : List.take x.length (x ++ y ++ z) = x := by
    rw [List.append_assoc]
    exact List.take_left x (y ++ z)
  have h2 : List.drop (x.length + v.length) (x ++ y ++ z) = z := by
    apply List.drop_left'
    simp [hv]
  rw [setAt, h1, h2]

theorem setAt_zero (arr v : Bytes) : setAt arr 0 v = v ++ arr.drop v.length := by
  simp [setAt]

theorem setAt_zero_buffer (info : Bytes) :
    setAt (List.replicate (info.length + 1 + 32) 0) 32 info =
      List.replicate 32 0 ++ info ++ [0] := by
  have hsplit : List.replicate (info.length + 1 + 32) 0 =
      List.replicate 32 0 ++ List.replicate info.length (0 : Nat) ++ [0] := by
    rw [show info.length + 1 + 32 = 32 + info.length + 1 by omega]
    rw [List.replicate_add, List.replicate_add]
    simp
  rw [hsplit,
    show (32 : Nat) = (List.replicate 32 (0 : Nat)).length by simp]
  exact setAt_block _ _ _ _ (by simp)

theorem setAt_last_byte (front : Bytes) (b b' : Nat) :
    setAt (front ++ [b]) front.length [b'] = front ++ [b'] := by
  have h := setAt_block front [b] [] [b'] (by simp)
  simpa using h

theorem setAt_head_block (arr T : Bytes) (hT : T.length = 32) :
    setAt arr 0 T = T ++ arr.drop 32 := by
  rw [setAt_zero, hT]

theorem drop32_front (front info : Bytes) (hfront : front.length = 32) (b : Nat) :
    List.drop 32 (front ++ info ++ [b]) = info ++ [b] := by
  rw [List.append_assoc]
  exact List.drop_left' hfront

theorem ds_first (front info : Bytes) (b b' : Nat) :
    setAt (front ++ info ++ [b]) ((front ++ info ++ [b]).length - 1) [b'] =
      front ++ info ++ [b'] := by
  have hl : (front ++ info ++ [b]).length - 1 = (front ++ info).length := by
    simp
  rw [hl, setAt_last_byte]

theorem ds_step (front info T : Bytes) (hfront : front.length = 32)
    (hT : T.length = 32) (b b' : Nat) :
    setAt (setAt (front ++ info ++ [b]) 0 T)
        ((front ++ info ++ [b]).length - 1) [b'] = T ++ info ++ [b'] := by
  rw [setAt_head_block _ _ hT, drop32_front _ _ hfront, ← List.append_assoc]
  have hl : (front ++ info ++ [b]).length - 1 = (T ++ info).length := by
    simp [hfront, hT]
  rw [hl, setAt_last_byte]

/-- Characterization of `deriveSecrets` on a 32-byte salt and a 32-byte-output
HMAC: it computes exactly the claim's chunk formulas. -/
theorem deriveSecrets_ok (hmac : Bytes → Bytes → Bytes) (input salt info : Bytes)
    (hsalt : salt.length = 32) (hlen : ∀ k d, (hmac k d).length = 32) :
    deriveSecrets hmac input salt info (some 1) = .ok [hkdfT1 hmac input salt info] ∧
    deriveSecrets hmac input salt info (some 2) =
      .ok [hkdfT1 hmac input salt info, hkdfT2 hmac input salt info] ∧
    deriveSecrets hmac input salt info (some 3) =
      .ok [hkdfT1 hmac input salt info, hkdfT2 hmac input salt info,
           hkdfT3 hmac input salt info] ∧
    deriveSecrets hmac input salt info none =
      .ok [hkdfT1 hmac input salt info, hkdfT2 hmac input salt info,
           hkdfT3 hmac input salt info] := by
  have hrep : (List.replicate 32 (0 : Nat)).length = 32 := by simp
  refine ⟨?_, ?_, ?_, ?_⟩ <;>
  · simp only [deriveSecrets, hsalt]
    rw [setAt_zero_buffer, ds_first, drop32_front _ _ hrep]
    try rw [ds_step _ _ _ hrep (hlen _ _)]
    try rw [ds_step _ _ _ (hlen _ _) (hlen _ _)]
    simp only [hkdfT1, hkdfT2, hkdfT3, List.append_assoc]
    norm_num

theorem fillAux_ok (hmac : Bytes → Bytes → Bytes) :
    ∀ (steps : Nat) (chain : Chain) (c : Nat),
    chain.chainKey.key.isSome →
    (c : Int) - chain.chainKey.counter ≤ 2000 →
    (c : Int) - chain.chainKey.counter ≤ steps →
    fillMessageKeysAux hmac chain c steps = .ok (advanceChainAux hmac chain c steps) := by
  intro steps
  induction steps with
  | zero =>
    intro chain c _ _ _
    simp [fillMessageKeysAux, advanceChainAux]
  | succ n ih =>
    intro chain c h1 h2 h3
    by_cases hlt : chain.chainKey.counter < (c : Int)
    · have hgap : ¬((c : Int) - chain.chainKey.counter > 2000) := by omega
      cases hk : chain.chainKey.key with
      | none => rw [hk] at h1; simp at h1
      | some key =>
        simp only [fillMessageKeysAux, advanceChainAux, if_pos hlt,
          if_neg hgap, hk]
        apply ih
        · simp
        · simp; omega
        · simp; omega
    · simp only [fillMessageKeysAux, advanceChainAux, if_neg hlt]

theorem advanceAux_counter (hmac : Bytes → Bytes → Bytes) :
    ∀ (steps : Nat) (chain : Chain) (c : Nat),
    (c : Int) - chain.chainKey.counter ≤ steps →
    chain.chainKey.key.isSome →
    (advanceChainAux hmac chain c steps).chainKey.counter =
      (if chain.chainKey.counter < (c : Int) then (c : Int)
       else chain.chainKey.counter) := by
  intro steps
  induction steps with
  | zero =>
    intro chain c hle _
    have : ¬ chain.chainKey.counter < (c : Int) := by omega
    simp [advanceChainAux, this]
  | succ n ih =>
    intro chain c hle h1
    by_cases hlt : chain.chainKey.counter < (c : Int)
    · cases hk : chain.chainKey.key with
      | none => rw [hk] at h1; simp at h1
      | some key =>
        simp only [advanceChainAux, if_pos hlt, hk]
        rw [ih _ c (by simp; omega) (by simp)]
        simp only []
        split <;> [rfl; omega]
    · simp [advanceChainAux, if_neg hlt, hlt]

/-- C1: `fillMessageKeys(chain, c)` with a present chain key and
`chain.chainKey.counter < c` advances the symmetric ratchet exactly as the
claim describes (message key `HMAC(key, [1])` stored at `counter+1`, chain key
replaced by `HMAC(key, [2])`, counter incremented, until the counter equals
`c`); it raises `SessionError` when the gap exceeds 2000, raises
`SessionError("Chain closed")` when the chain key is absent, and leaves the
chain unchanged when `counter ≥ c`. -/
theorem claim_C1_fillMessageKeys (hmac : Bytes → Bytes → Bytes) (chain : Chain)
    (c : Nat) :
    (chain.chainKey.key.isSome → chain.chainKey.counter < (c : Int) →
      (c : Int) - chain.chainKey.counter ≤ 2000 →
      fillMessageKeys hmac chain c = .ok (advanceChain hmac chain c) ∧
      (advanceChain hmac chain c).chainKey.counter = (c : Int)) ∧
    (chain.chainKey.counter < (c : Int) →
      (c : Int) - chain.chainKey.counter > 2000 →
      fillMessageKeys hmac chain c =
        .error (.sessionError "Over 2000 messages into the future!")) ∧
    (chain.chainKey.key = none → chain.chainKey.counter < (c : Int) →
      (c : Int) - chain.chainKey.counter ≤ 2000 →
      fillMessageKeys hmac chain c = .error (.sessionError "Chain closed")) ∧
    ((c : Int) ≤ chain.chainKey.counter →
      fillMessageKeys hmac chain c = .ok chain) := by
  refine ⟨?_, ?_, ?_, ?_⟩
  · intro h1 hlt hgap
    constructor
    · exact fillAux_ok hmac _ chain c h1 hgap (by omega)
    · rw [advanceChain, advanceAux_counter hmac _ chain c (by omega) h1,
        if_pos hlt]
  · intro hlt hgap
    have hsteps : ((c : Int) - chain.chainKey.counter).toNat =
        (((c : Int) - chain.chainKey.counter).toNat - 1) + 1 := by omega
    rw [fillMessageKeys, hsteps]
    simp only [fillMessageKeysAux, if_pos hlt, if_pos hgap]
  · intro hk hlt hgap
    have hsteps : ((c : Int) - chain.chainKey.counter).toNat =
        (((c : Int) - chain.chainKey.counter).toNat - 1) + 1 := by omega
    rw [fillMessageKeys, hsteps]
    simp only [fillMessageKeysAux, if_pos hlt, if_neg (by omega :
      ¬((c : Int) - chain.chainKey.counter > 2000)), hk]
  · intro hge
    have hsteps : ((c : Int) - chain.chainKey.counter).toNat = 0 := by omega
    rw [fillMessageKeys, hsteps]
    rfl

/-- Witness for C1 at a concrete chain and target counter. -/
theorem claim_C1_witness :
    fillMessageKeys hmacC ⟨⟨-1, some [9]⟩, .receiving, []⟩ 2 =
      .ok (advanceChain hmacC ⟨⟨-1, some [9]⟩, .receiving, []⟩ 2) ∧
    (advanceChain hmacC ⟨⟨-1, some [9]⟩, .receiving, []⟩ 2).chainKey.counter = 2 :=
  (claim_C1_fillMessageKeys hmacC ⟨⟨-1, some [9]⟩, .receiving, []⟩ 2).1
    (by decide) (by decide) (by decide)

/-- C6 (amended): with a 32-byte salt and `chunks ∈ {1,2,3}`, `deriveSecrets`
returns exactly `chunks` 32-byte outputs following the claim's chunk formulas
(`T1` MACs only `info ‖ 0x01`); it raises for a salt whose length is not 32,
and for a NONZERO `chunks` outside 1..3 — a `chunks` argument of `0` is falsy
in JS (`chunks = chunks || 3`) and silently defaults to 3 instead of raising,
which is the one correction to the claim. -/
theorem claim_C6_deriveSecrets (hmac : Bytes → Bytes → Bytes)
    (input salt info : Bytes) (c : Int)
    (hlen : ∀ k d, (hmac k d).length = 32) :
    (salt.length = 32 → 1 ≤ c → c ≤ 3 →
      deriveSecrets hmac input salt info (some c) =
        .ok (List.take c.toNat
          [hkdfT1 hmac input salt info, hkdfT2 hmac input salt info,
           hkdfT3 hmac input salt info]) ∧
      (List.take c.toNat
        [hkdfT1 hmac input salt info, hkdfT2 hmac input salt info,
         hkdfT3 hmac input salt info]).length = c.toNat ∧
      ∀ b ∈ List.take c.toNat
        [hkdfT1 hmac input salt info, hkdfT2 hmac input salt info,
         hkdfT3 hmac input salt info], b.length = 32) ∧
    (salt.length ≠ 32 →
      deriveSecrets hmac input salt info (some c) =
        .error (.jsError "Got salt of incorrect length")) ∧
    (salt.length = 32 → c ≠ 0 → (c < 1 ∨ 3 < c) →
      deriveSecrets hmac input salt info (some c) =
        .error (.jsError "Chunks must be between 1 and 3")) := by
  refine ⟨?_, ?_, ?_⟩
  · intro hsalt hc1 hc3
    have hcases : c = 1 ∨ c = 2 ∨ c = 3 := by omega
    have hok := deriveSecrets_ok hmac input salt info hsalt hlen
    rcases hcases with rfl | rfl | rfl
    · exact ⟨by simpa using hok.1, by simp, by
        simp only [hkdfT1, hkdfT2, hkdfT3]
        simp [hlen]⟩
    · exact ⟨by simpa using hok.2.1, by simp, by
        simp only [hkdfT1, hkdfT2, hkdfT3]
        simp [hlen]⟩
    · exact ⟨by simpa using hok.2.2.1, by simp, by
        simp only [hkdfT1, hkdfT2, hkdfT3]
        simp [hlen]⟩
  · intro hsalt
    simp only [deriveSecrets, if_pos hsalt]
  · intro hsalt hc0 hrange
    simp only [deriveSecrets, hsalt]
    rw [if_neg (by omega : ¬(32 : Nat) ≠ 32), if_pos]
    simp only [if_neg hc0]
    omega

/-- Counterexample for C6 as stated: `chunks = 0` lies outside 1..3 yet
`deriveSecrets` does not raise — it returns three chunks (the JS default),
because `0` is falsy. -/
theorem claim_C6_counterexample :
    deriveSecrets hmacC [1] (List.replicate 32 0) [2] (some 0) =
      .ok [hkdfT1 hmacC [1] (List.replicate 32 0) [2],
           hkdfT2 hmacC [1] (List.replicate 32 0) [2],
           hkdfT3 hmacC [1] (List.replicate 32 0) [2]] ∧
    ¬(1 ≤ (0 : Int) ∧ (0 : Int) ≤ 3) := by
  constructor
  · have h := (deriveSecrets_ok hmacC [1] (List.replicate 32 0) [2]
      (by simp) (by intro k d; simp [hmacC])).2.2.1
    rw [← h]
    rfl
  · decide

/-- Witness for C6 at concrete inputs with `chunks = 2`. -/
theorem claim_C6_witness :
    deriveSecrets hmacC [1] (List.replicate 32 0) [5] (some 2) =
      .ok [hkdfT1 hmacC [1] (List.replicate 32 0) [5],
           hkdfT2 hmacC [1] (List.replicate 32 0) [5]] := by
  have h := (claim_C6_deriveSecrets hmacC [1] (List.replicate 32 0) [5] 2
    (by intro k d; simp [hmacC])).1 (by simp) (by norm_num) (by norm_num)
  simpa using h.1

/-- C7: `getSession(base_key)` returns the stored session when present with
`baseKeyType = THEIRS`, returns nothing when absent, and raises exactly when
the stored session's `baseKeyType = OURS`.  The operation is a pure read: it
is modelled as a function of the record that returns no modified record, so
the record is unchanged in all cases. -/
theorem claim_C7_getSession (r : SessionRecord) (key : Bytes) :
    (alistLookup r.sessions key = none →
      r.getSession key = .ok none) ∧
    (∀ s, alistLookup r.sessions key = some s →
      s.indexInfo.baseKeyType = .theirs →
      r.getSession key = .ok (some s)) ∧
    (∀ s, alistLookup r.sessions key = some s →
      s.indexInfo.baseKeyType = .ours →
      r.getSession key =
        .error (.jsError "Tried to lookup a session using our basekey")) := by
  refine ⟨?_, ?_, ?_⟩
  · intro h
    simp [SessionRecord.getSession, h]
  · intro s h ht
    simp [SessionRecord.getSession, h, ht]
  · intro s h ht
    simp [SessionRecord.getSession, h, ht]

/-- Witness for C7 on concrete one-session records. -/
theorem claim_C7_witness :
    SessionRecord.getSession ⟨[([7], entryW .theirs (-1) [7])], "v1"⟩ [7] =
      .ok (some (entryW .theirs (-1) [7])) ∧
    SessionRecord.getSession ⟨[([7], entryW .ours (-1) [7])], "v1"⟩ [7] =
      .error (.jsError "Tried to lookup a session using our basekey") ∧
    SessionRecord.getSession ⟨[], "v1"⟩ [7] = .ok none := by
  refine ⟨?_, ?_, ?_⟩
  · exact (claim_C7_getSession ⟨[([7], entryW .theirs (-1) [7])], "v1"⟩ [7]).2.1
      (entryW .theirs (-1) [7]) (by rfl) (by rfl)
  · exact (claim_C7_getSession ⟨[([7], entryW .ours (-1) [7])], "v1"⟩ [7]).2.2
      (entryW .ours (-1) [7]) (by rfl) (by rfl)
  · exact (claim_C7_getSession ⟨[], "v1"⟩ [7]).1 (by rfl)

/-- Counterexample for C2 as stated: a record of 41 sessions all closed at
timestamp `0` (so `closed ≠ -1` for each of them, i.e. all are closed in the
claim's reading) is left completely unchanged by `removeOldSessions`, even
though the count exceeds 40 — the truthiness filter treats `closed = 0` as
open. -/
theorem claim_C2_counterexample :
    SessionRecord.removeOldSessions recordC2 = recordC2 ∧
    recordC2.sessions.length = 41 ∧
    ∀ p ∈ recordC2.sessions, p.2.indexInfo.closed ≠ -1 := by
  refine ⟨by rfl, by rfl, by decide⟩

theorem insertByClosed_perm (p : Bytes × SessionEntry)
    (l : List (Bytes × SessionEntry)) : (insertByClosed p l).Perm (p :: l) := by
  induction l with
  | nil => exact .refl _
  | cons q rest ih =>
    rw [insertByClosed]
    split
    · exact .refl _
    · exact (ih.cons q).trans (List.Perm.swap p q rest)

theorem sortByClosed_perm (l : List (Bytes × SessionEntry)) :
    (sortByClosed l).Perm l := by
  induction l with
  | nil => exact .refl _
  | cons p rest ih =>
    exact (insertByClosed_perm p (sortByClosed rest)).trans (ih.cons p)

theorem insertByClosed_pairwise (p : Bytes × SessionEntry)
    (l : List (Bytes × SessionEntry))
    (h : l.Pairwise (fun a b => a.2.indexInfo.closed ≤ b.2.indexInfo.closed)) :
    (insertByClosed p l).Pairwise
      (fun a b => a.2.indexInfo.closed ≤ b.2.indexInfo.closed) := by
  induction l with
  | nil => simp [insertByClosed]
  | cons q rest ih =>
    rw [List.pairwise_cons] at h
    obtain ⟨hq, hrest⟩ := h
    rw [insertByClosed]
    split
    · rename_i hlt
      refine List.Pairwise.cons ?_ (List.Pairwise.cons hq hrest)
      intro a ha
      rcases List.mem_cons.mp ha with rfl | ha
      · omega
      · have := hq a ha
        omega
    · rename_i hnlt
      refine List.Pairwise.cons ?_ (ih hrest)
      intro a ha
      have hmem := (insertByClosed_perm p rest).mem_iff.mp ha
      rcases List.mem_cons.mp hmem with rfl | ha
      · omega
      · exact hq a ha

theorem sortByClosed_pairwise (l : List (Bytes × SessionEntry)) :
    (sortByClosed l).Pairwise
      (fun a b => a.2.indexInfo.closed ≤ b.2.indexInfo.closed) := by
  induction l with
  | nil => simp [sortByClosed]
  | cons p rest ih => exact insertByClosed_pairwise p _ ih

theorem removeKeys_eq_filter (ks : List Bytes)
    (l : List (Bytes × SessionEntry)) :
    removeKeys l ks = l.filter (fun p => decide (p.1 ∉ ks)) := by
  induction ks generalizing l with
  | nil => simp [removeKeys]
  | cons k ks ih =>
    rw [removeKeys, List.foldl_cons]
    have : List.foldl (fun acc k => alistErase acc k) (alistErase l k) ks =
        removeKeys (alistErase l k) ks := rfl
    rw [this, ih, alistErase, List.filter_filter]
    apply List.filter_congr
    intro p _
    simp only [List.mem_cons, not_or, Bool.and_eq_true, decide_eq_true_eq]
    by_cases h1 : p.1 = k <;> by_cases h2 : p.1 ∈ ks <;> simp [h1, h2]

theorem alistErase_length (l : List (Bytes × SessionEntry)) (k : Bytes)
    (hl : (l.map Prod.fst).Nodup) (hk : k ∈ l.map Prod.fst) :
    (alistErase l k).length + 1 = l.length := by
  induction l with
  | nil => simp at hk
  | cons a rest ih =>
    rw [List.map_cons, List.nodup_cons] at hl
    by_cases ha : a.1 = k
    · have hfix : alistErase rest k = rest := by
        apply List.filter_eq_self.mpr
        intro p hp
        simp only [decide_eq_true_eq]
        intro hpk
        apply hl.1
        rw [← ha] at hpk
        exact hpk ▸ List.mem_map_of_mem Prod.fst hp
      have h2 : alistErase (a :: rest) k = alistErase rest k := by
        simp [alistErase, List.filter_cons, ha]
      rw [h2, hfix]
      simp
    · have hk' : k ∈ rest.map Prod.fst := by
        rcases List.mem_map.mp hk with ⟨p, hp, hpk⟩
        rcases List.mem_cons.mp hp with rfl | hp
        · exact absurd hpk ha
        · exact hpk ▸ List.mem_map_of_mem Prod.fst hp
      have hrec := ih hl.2 hk'
      have h2 : alistErase (a :: rest) k = a :: alistErase rest k := by
        simp [alistErase, List.filter_cons, ha]
      rw [h2]
      simp only [List.length_cons]
      omega

theorem alistErase_keys_sub (l : List (Bytes × SessionEntry)) (k k' : Bytes)
    (hne : k' ≠ k) (hk' : k' ∈ l.map Prod.fst) :
    k' ∈ (alistErase l k).map Prod.fst := by
  rcases List.mem_map.mp hk' with ⟨p, hp, hpk⟩
  rw [← hpk]
  apply List.mem_map_of_mem Prod.fst
  exact List.mem_filter.mpr ⟨hp, by simp [hpk, hne]⟩

theorem removeKeys_length (ks : List Bytes) (l : List (Bytes × SessionEntry))
    (hl : (l.map Prod.fst).Nodup) (hks : ks.Nodup)
    (hmem : ∀ k ∈ ks, k ∈ l.map Prod.fst) :
    (removeKeys l ks).length = l.length - ks.length := by
  induction ks generalizing l with
  | nil => simp [removeKeys]
  | cons k ks ih =>
    rw [List.nodup_cons] at hks
    have hstep : removeKeys l (k :: ks) = removeKeys (alistErase l k) ks := rfl
    have hkey : k ∈ l.map Prod.fst := hmem k (List.mem_cons_self k ks)
    have hlen := alistErase_length l k hl hkey
    have hnodup : ((alistErase l k).map Prod.fst).Nodup :=
      ((List.filter_sublist l).map Prod.fst).nodup hl
    have hmem' : ∀ k' ∈ ks, k' ∈ (alistErase l k).map Prod.fst := by
      intro k' hk'
      exact alistErase_keys_sub l k k'
        (fun h => hks.1 (h ▸ hk')) (hmem k' (List.mem_cons_of_mem k hk'))
    rw [hstep, ih _ hnodup hks.2 hmem']
    simp only [List.length_cons]
    omega

theorem alist_key_inj {l : List (Bytes × SessionEntry)}
    (h : (l.map Prod.fst).Nodup) {p q : Bytes × SessionEntry}
    (hp : p ∈ l) (hq : q ∈ l) (hk : p.1 = q.1) : p = q := by
  induction l with
  | nil => simp at hp
  | cons a rest ih =>
    rw [List.map_cons, List.nodup_cons] at h
    rcases List.mem_cons.mp hp with hpa | hp <;>
      rcases List.mem_cons.mp hq with hqa | hq
    · rw [hpa, hqa]
    · exfalso
      apply h.1
      rw [← hpa, hk]
      exact List.mem_map_of_mem Prod.fst hq
    · exfalso
      apply h.1
      rw [← hqa, ← hk]
      exact List.mem_map_of_mem Prod.fst hp
    · exact ih h.2 hp hq

theorem removeOldSessions_eq (r : SessionRecord) :
    SessionRecord.removeOldSessions r =
      if r.sessions.length ≤ 40 then r
      else if r.sessions.filter (fun p => removableClosed p.2) = [] then r
      else { r with sessions :=
        (removeKeys r.sessions
          (((sortByClosed (r.sessions.filter (fun p => removableClosed p.2))).take
            (min (r.sessions.length - 40)
              (r.sessions.filter (fun p => removableClosed p.2)).length)).map
            Prod.fst)) } := by
  simp only [SessionRecord.removeOldSessions, CLOSED_SESSIONS_MAX]

/-- C2 (amended): `removeOldSessions()` never raises; it is the identity when
at most 40 sessions exist; it removes only sessions whose `closed` timestamp
is truthy and not `-1` (so a session closed at timestamp `0` is treated as
open — the one correction to the claim), always the oldest-closed ones first;
when the count exceeds 40 it removes `min(count - 40, eligible)` of them; and
when the count exceeds 40 but no session is eligible it returns the record
unchanged (a warning in the source). -/
theorem claim_C2_removeOldSessions (r : SessionRecord)
    (hkeys : (r.sessions.map Prod.fst).Nodup) :
    (SessionRecord.removeOldSessions r).sessions.Sublist r.sessions ∧
    (r.sessions.length ≤ 40 → SessionRecord.removeOldSessions r = r) ∧
    (∀ p ∈ r.sessions, removableClosed p.2 = false →
      p ∈ (SessionRecord.removeOldSessions r).sessions) ∧
    (40 < r.sessions.length →
      (∀ p ∈ r.sessions, removableClosed p.2 = false) →
      SessionRecord.removeOldSessions r = r) ∧
    (40 < r.sessions.length →
      r.sessions.filter (fun p => removableClosed p.2) ≠ [] →
      (SessionRecord.removeOldSessions r).sessions.length =
        r.sessions.length -
          min (r.sessions.length - 40)
            (r.sessions.filter (fun p => removableClosed p.2)).length) ∧
    (∀ p ∈ r.sessions, p ∉ (SessionRecord.removeOldSessions r).sessions →
      removableClosed p.2 = true ∧
      ∀ q ∈ (SessionRecord.removeOldSessions r).sessions,
        removableClosed q.2 = true →
        p.2.indexInfo.closed ≤ q.2.indexInfo.closed) := by
  have h2 : r.sessions.length ≤ 40 → SessionRecord.removeOldSessions r = r := by
    intro h
    rw [removeOldSessions_eq, if_pos h]
  have h4 : 40 < r.sessions.length →
      (∀ p ∈ r.sessions, removableClosed p.2 = false) →
      SessionRecord.removeOldSessions r = r := by
    intro h hall
    rw [removeOldSessions_eq, if_neg (by omega), if_pos]
    apply List.filter_eq_nil_iff.mpr
    intro p hp
    simp [hall p hp]
  by_cases hle : r.sessions.length ≤ 40
  · refine ⟨by rw [h2 hle], h2, ?_, by intro h; omega, by intro h; omega, ?_⟩
    · intro p hp _
      rw [h2 hle]
      exact hp
    · intro p hp hnot
      rw [h2 hle] at hnot
      exact absurd hp hnot
  · by_cases hcl0 : r.sessions.filter (fun p => removableClosed p.2) = []
    · have hid : SessionRecord.removeOldSessions r = r := by
        rw [removeOldSessions_eq, if_neg hle, if_pos hcl0]
      refine ⟨by rw [hid], h2, ?_, h4, ?_, ?_⟩
      · intro p hp _
        rw [hid]
        exact hp
      · intro _ hne
        exact absurd hcl0 hne
      · intro p hp hnot
        rw [hid] at hnot
        exact absurd hp hnot
    · -- main case: more than 40 sessions, at least one eligible
      have hres : (SessionRecord.removeOldSessions r).sessions =
          removeKeys r.sessions
            (((sortByClosed (r.sessions.filter (fun p => removableClosed p.2))).take
              (min (r.sessions.length - 40)
                (r.sessions.filter (fun p => removableClosed p.2)).length)).map
              Prod.fst) := by
        rw [removeOldSessions_eq, if_neg hle, if_neg hcl0]
      have hperm := sortByClosed_perm (r.sessions.filter (fun p => removableClosed p.2))
      have hpair := sortByClosed_pairwise (r.sessions.filter (fun p => removableClosed p.2))
      have hclkeys :
          ((r.sessions.filter (fun p => removableClosed p.2)).map Prod.fst).Nodup :=
        hkeys.sublist ((List.filter_sublist r.sessions).map Prod.fst)
      have hsrtkeys :
          ((sortByClosed (r.sessions.filter (fun p => removableClosed p.2))).map
            Prod.fst).Nodup :=
        ((hperm.map Prod.fst).nodup_iff).mpr hclkeys
      have hmem_take : ∀ x ∈ (sortByClosed
          (r.sessions.filter (fun p => removableClosed p.2))).take
            (min (r.sessions.length - 40)
              (r.sessions.filter (fun p => removableClosed p.2)).length),
          x ∈ r.sessions ∧ removableClosed x.2 = true := by
        intro x hx
        have hx' := hperm.mem_iff.mp (List.mem_of_mem_take hx)
        have hx2 := List.mem_filter.mp hx'
        exact ⟨hx2.1, hx2.2⟩
      have hkND : ((((sortByClosed
          (r.sessions.filter (fun p => removableClosed p.2))).take
            (min (r.sessions.length - 40)
              (r.sessions.filter (fun p => removableClosed p.2)).length))).map
            Prod.fst).Nodup := by
        rw [List.map_take]
        exact hsrtkeys.sublist (List.take_sublist _ _)
      have hkmem : ∀ k ∈ ((((sortByClosed
          (r.sessions.filter (fun p => removableClosed p.2))).take
            (min (r.sessions.length - 40)
              (r.sessions.filter (fun p => removableClosed p.2)).length))).map
            Prod.fst), k ∈ r.sessions.map Prod.fst := by
        intro k hk
        rcases List.mem_map.mp hk with ⟨x, hx, hxk⟩
        exact hxk ▸ List.mem_map_of_mem Prod.fst (hmem_take x hx).1
      have hkey_to_take : ∀ p ∈ r.sessions,
          p.1 ∈ ((((sortByClosed
            (r.sessions.filter (fun p => removableClosed p.2))).take
              (min (r.sessions.length - 40)
                (r.sessions.filter (fun p => removableClosed p.2)).length))).map
              Prod.fst) →
          p ∈ ((sortByClosed
            (r.sessions.filter (fun p => removableClosed p.2))).take
              (min (r.sessions.length - 40)
                (r.sessions.filter (fun p => removableClosed p.2)).length)) := by
        intro p hp hpk
        rcases List.mem_map.mp hpk with ⟨x, hx, hxk⟩
        have hxs := (hmem_take x hx).1
        have hxp : x = p := alist_key_inj hkeys hxs hp hxk
        rwa [← hxp]
      refine ⟨?_, h2, ?_, h4, ?_, ?_⟩
      · rw [hres, removeKeys_eq_filter]
        exact List.filter_sublist _
      · intro p hp hfalse
        rw [hres, removeKeys_eq_filter]
        apply List.mem_filter.mpr
        refine ⟨hp, ?_⟩
        simp only [decide_eq_true_eq]
        intro hpk
        have := (hmem_take _ (hkey_to_take p hp hpk)).2
        rw [hfalse] at this
        exact Bool.false_ne_true this
      · intro _ _
        rw [hres, removeKeys_length _ _ hkeys hkND hkmem]
        congr 1
        rw [List.length_map, List.length_take]
        have := hperm.length_eq
        omega
      · intro p hp hnot
        rw [hres, removeKeys_eq_filter] at hnot
        have hpk : p.1 ∈ ((((sortByClosed
            (r.sessions.filter (fun p => removableClosed p.2))).take
              (min (r.sessions.length - 40)
                (r.sessions.filter (fun p => removableClosed p.2)).length))).map
              Prod.fst) := by
          by_contra hnk
          exact hnot (List.mem_filter.mpr ⟨hp, by simpa using hnk⟩)
        have hptake := hkey_to_take p hp hpk
        refine ⟨(hmem_take p hptake).2, ?_⟩
        intro q hq hqrem
        rw [hres, removeKeys_eq_filter] at hq
        have hq2 := List.mem_filter.mp hq
        have hqcl : q ∈ r.sessions.filter (fun p => removableClosed p.2) :=
          List.mem_filter.mpr ⟨hq2.1, hqrem⟩
        have hqsrt := hperm.mem_iff.mpr hqcl
        have hqdrop : q ∈ (sortByClosed
            (r.sessions.filter (fun p => removableClosed p.2))).drop
              (min (r.sessions.length - 40)
                (r.sessions.filter (fun p => removableClosed p.2)).length) := by
          rcases List.mem_append.mp
            (by rw [List.take_append_drop]; exact hqsrt :
              q ∈ (sortByClosed
                (r.sessions.filter (fun p => removableClosed p.2))).take
                  (min (r.sessions.length - 40)
                    (r.sessions.filter (fun p => removableClosed p.2)).length) ++
                  (sortByClosed
                    (r.sessions.filter (fun p => removableClosed p.2))).drop
                      (min (r.sessions.length - 40)
                        (r.sessions.filter
                          (fun p => removableClosed p.2)).length)) with htk | hdp
          · exfalso
            have : q.1 ∈ ((((sortByClosed
                (r.sessions.filter (fun p => removableClosed p.2))).take
                  (min (r.sessions.length - 40)
                    (r.sessions.filter (fun p => removableClosed p.2)).length))).map
                  Prod.fst) := List.mem_map_of_mem Prod.fst htk
            have hq3 := hq2.2
            simp only [decide_eq_true_eq] at hq3
            exact hq3 this
          · exact hdp
        have hsplit := List.take_append_drop
          (min (r.sessions.length - 40)
            (r.sessions.filter (fun p => removableClosed p.2)).length)
          (sortByClosed (r.sessions.filter (fun p => removableClosed p.2)))
        have hpw := hpair
        rw [← hsplit] at hpw
        exact (List.pairwise_append.mp hpw).2.2 p hptake q hqdrop

/-- Witness for C2: a 41-session record with 41 distinct keys, one of them
closed at timestamp 5, is pruned to 40 sessions and keeps every open one. -/
theorem claim_C2_witness :
    ((⟨([99], entryW .theirs 5 [99]) ::
        (List.range 40).map (fun i => ([i], entryW .theirs (-1) [i])), "v1"⟩ :
      SessionRecord).removeOldSessions).sessions.length =
        (([99], entryW .theirs 5 [99]) ::
          (List.range 40).map (fun i => ([i], entryW .theirs (-1) [i]))).length - 1 ∧
    (([0], entryW .theirs (-1) [0]) ∈
      ((⟨([99], entryW .theirs 5 [99]) ::
          (List.range 40).map (fun i => ([i], entryW .theirs (-1) [i])), "v1"⟩ :
        SessionRecord).removeOldSessions).sessions) := by
  have h := claim_C2_removeOldSessions
    ⟨([99], entryW .theirs 5 [99]) ::
      (List.range 40).map (fun i => ([i], entryW .theirs (-1) [i])), "v1"⟩
    (by decide)
  constructor
  · have h5 := h.2.2.2.2.1 (by decide) (by decide)
    rw [h5]
    decide
  · exact h.2.2.1 ([0], entryW .theirs (-1) [0]) (by decide) (by decide)

/-- C8: the code at the failing input `"a.b.2"`.  The regex accepts it and
`from` splits it at the LAST dot into id `"a.b"` and device id `2` — the
in-source comment says the last-dot split exists precisely "to allow IDs with
dots" — but `from` then calls the constructor, whose unconditional dot check
rejects the id, so parsing a dotted id throws instead of round-tripping. -/
theorem claim_C8_code_divergence :
    matchesAddrRegex ("a.b.2".toList) = true ∧
    splitLastDot ("a.b.2".toList) = some ("a.b".toList, "2".toList) ∧
    protocolAddressFrom ("a.b.2".toList) =
      .error (.typeError "id cannot contain dots") ∧
    protocolAddressFrom ("a.b.2".toList) ≠
      .ok ⟨"a.b".toList, 2⟩ := by
  refine ⟨by decide, by decide, by rfl, ?_⟩
  intro h
  rw [show protocolAddressFrom ("a.b.2".toList) =
    .error (.typeError "id cannot contain dots") from rfl] at h
  exact Except.noConfusion h

/-- C10: `encrypt(data)` raises when `data` is not a Buffer or is an empty
Buffer, and it does so before any action is performed — in particular before
the per-peer job is queued, so no session record is loaded, mutated or
stored in that case. -/
theorem claim_C10_encrypt_validation (isBuffer : Bool) (dataLen : Nat)
    (identityPresent : Bool) (jobActs : List CipherAction)
    (hbad : isBuffer = false ∨ dataLen = 0) :
    (encryptEntry isBuffer dataLen identityPresent jobActs).2.isSome ∧
    (encryptEntry isBuffer dataLen identityPresent jobActs).1 = [] ∧
    CipherAction.queueJob ∉ (encryptEntry isBuffer dataLen identityPresent jobActs).1 ∧
    CipherAction.loadSession ∉ (encryptEntry isBuffer dataLen identityPresent jobActs).1 ∧
    CipherAction.storeSession ∉ (encryptEntry isBuffer dataLen identityPresent jobActs).1 ∧
    (isBuffer = false →
      (encryptEntry isBuffer dataLen identityPresent jobActs).2 =
        some (.typeError "data must be a Buffer")) ∧
    (isBuffer = true → dataLen = 0 →
      (encryptEntry isBuffer dataLen identityPresent jobActs).2 =
        some (.jsError "data cannot be empty")) := by
  rcases hbad with hb | hl
  · subst hb
    simp [encryptEntry]
  · subst hl
    cases isBuffer <;> simp [encryptEntry]

/-- Witness for C10 at concrete inputs (an empty Buffer, and a non-Buffer). -/
theorem claim_C10_witness :
    (encryptEntry true 0 true [CipherAction.loadSession]).1 = [] ∧
    (encryptEntry true 0 true [CipherAction.loadSession]).2 =
      some (.jsError "data cannot be empty") ∧
    (encryptEntry false 5 true [CipherAction.loadSession]).2 =
      some (.typeError "data must be a Buffer") := by
  refine ⟨?_, ?_, ?_⟩
  · exact (claim_C10_encrypt_validation true 0 true [CipherAction.loadSession]
      (Or.inr rfl)).2.1
  · exact (claim_C10_encrypt_validation true 0 true [CipherAction.loadSession]
      (Or.inr rfl)).2.2.2.2.2.2 rfl rfl
  · exact (claim_C10_encrypt_validation false 5 true [CipherAction.loadSession]
      (Or.inl rfl)).2.2.2.2.2.1 rfl

theorem b64Index_b64Char : ∀ n < 64, b64Index (b64Char n) = n := by decide

theorem b64Char_ne_pad : ∀ n < 64, b64Char n ≠ '=' := by decide

theorem b64_roundtrip : ∀ (l : List Nat), validBytes l = true →
    b64Decode (b64Encode l) = l := by
  intro l
  induction l using b64Encode.induct with
  | case1 =>
    intro _
    rfl
  | case2 a =>
    intro hv
    simp only [validBytes, List.all_cons, List.all_nil, Bool.and_true,
      decide_eq_true_eq] at hv
    have h1 : a / 4 < 64 := by omega
    have h2 : a % 4 * 16 < 64 := by omega
    simp only [b64Encode, b64Decode, if_true]
    rw [b64Index_b64Char _ h1, b64Index_b64Char _ h2]
    have e1 : a % 4 * 16 / 16 = a % 4 := by
      omega
    simp only [List.cons.injEq, and_true]
    omega
  | case3 a b =>
    intro hv
    simp only [validBytes, List.all_cons, List.all_nil, Bool.and_true,
      Bool.and_eq_true, decide_eq_true_eq] at hv
    obtain ⟨ha, hb⟩ := hv
    have h1 : a / 4 < 64 := by omega
    have h2 : a % 4 * 16 + b / 16 < 64 := by omega
    have h3 : b % 16 * 4 < 64 := by omega
    simp only [b64Encode, b64Decode, if_true]
    rw [if_neg (b64Char_ne_pad _ h3)]
    rw [b64Index_b64Char _ h1, b64Index_b64Char _ h2, b64Index_b64Char _ h3]
    simp only [List.cons.injEq, and_true]
    constructor
    · omega
    · omega
  | case4 a b d rest ih =>
    intro hv
    simp only [validBytes, List.all_cons, Bool.and_eq_true,
      decide_eq_true_eq] at hv
    obtain ⟨ha, hb, hd, hrest⟩ := hv
    have h1 : a / 4 < 64 := by omega
    have h2 : a % 4 * 16 + b / 16 < 64 := by omega
    have h3 : b % 16 * 4 + d / 64 < 64 := by omega
    have h4 : d % 64 < 64 := by omega
    simp only [b64Encode, b64Decode]
    rw [if_neg (b64Char_ne_pad _ h3), if_neg (b64Char_ne_pad _ h4)]
    rw [b64Index_b64Char _ h1, b64Index_b64Char _ h2, b64Index_b64Char _ h3,
      b64Index_b64Char _ h4]
    rw [ih (by simpa [validBytes] using hrest)]
    simp only [List.cons.injEq, and_true]
    refine ⟨by omega, by omega, by omega⟩

theorem b64Encode_ne_nil (l : List Nat) (h : l ≠ []) : b64Encode l ≠ [] := by
  match l with
  | [] => exact absurd rfl h
  | [a] => simp [b64Encode]
  | [a, b] => simp [b64Encode]
  | a :: b :: d :: rest => simp [b64Encode]

theorem mk_map_roundtrip (mks : List (Int × Bytes))
    (h : mks.all (fun p => validBytes p.2) = true) :
    (mks.map (fun p => (p.1, b64Encode p.2))).map
      (fun p => (p.1, b64Decode p.2)) = mks := by
  induction mks with
  | nil => rfl
  | cons p rest ih =>
    simp only [List.all_cons, Bool.and_eq_true] at h
    simp only [List.map_cons]
    rw [b64_roundtrip p.2 h.1, ih h.2]

theorem chain_roundtrip (c : Chain) (h : validChain c = true) :
    deserializeChain (serializeChain c) = c := by
  obtain ⟨⟨counter, key⟩, ctype, mks⟩ := c
  simp only [validChain, Bool.and_eq_true] at h
  obtain ⟨hkey, hmks⟩ := h
  simp only [serializeChain, deserializeChain]
  refine congrArg₂ (fun a b => Chain.mk a ctype b) ?_ (mk_map_roundtrip mks hmks)
  cases key with
  | none => rfl
  | some k =>
    simp only at hkey
    rw [Bool.and_eq_true, Bool.not_eq_true'] at hkey
    have hk : k ≠ [] := by
      intro hnil
      rw [hnil] at hkey
      simp at hkey
    have hne : ¬(b64Encode k).isEmpty = true := by
      intro habs
      exact b64Encode_ne_nil k hk (by simpa using habs)
    simp only [Option.map_some']
    rw [if_neg hne, b64_roundtrip k hkey.2]

theorem chains_map_roundtrip (chains : List (Bytes × Chain))
    (h : chains.all (fun p => validBytes p.1 && validChain p.2) = true) :
    (chains.map (fun p => (b64Encode p.1, serializeChain p.2))).map
      (fun p => (b64Decode p.1, deserializeChain p.2)) = chains := by
  induction chains with
  | nil => rfl
  | cons p rest ih =>
    simp only [List.all_cons, Bool.and_eq_true] at h
    simp only [List.map_cons]
    rw [b64_roundtrip p.1 h.1.1, chain_roundtrip p.2 h.1.2, ih h.2]

/-- C9: for every `SessionEntry` whose byte fields are in range and whose
present chain keys are nonempty (a present chain key is always a 32-byte HMAC
output in the library), `deserialize(serialize(e))` equals `e` field by
field, including each chain's counter, key-or-absent, chain type and
message-key map. -/
theorem claim_C9_roundtrip (e : SessionEntry) (hv : validEntry e = true) :
    deserializeEntry (serializeEntry e) = e := by
  obtain ⟨rid, ⟨⟨pub, priv⟩, lrek, pc, rk⟩, ⟨bk, bkt, cl, us, cr, rik⟩,
    chains, ppk⟩ := e
  cases ppk with
  | none =>
    simp only [validEntry, Bool.and_eq_true] at hv
    obtain ⟨⟨⟨⟨⟨⟨⟨h1, h2⟩, h3⟩, h4⟩, h5⟩, h6⟩, h7⟩, _⟩ := hv
    simp only [serializeEntry, deserializeEntry, Option.map_none']
    rw [b64_roundtrip _ h1, b64_roundtrip _ h2, b64_roundtrip _ h3,
      b64_roundtrip _ h4, b64_roundtrip _ h5, b64_roundtrip _ h6,
      chains_map_roundtrip _ h7]
  | some pk =>
    simp only [validEntry, Bool.and_eq_true] at hv
    obtain ⟨⟨⟨⟨⟨⟨⟨h1, h2⟩, h3⟩, h4⟩, h5⟩, h6⟩, h7⟩, h8⟩ := hv
    simp only [serializeEntry, deserializeEntry, Option.map_some']
    rw [b64_roundtrip _ h1, b64_roundtrip _ h2, b64_roundtrip _ h3,
      b64_roundtrip _ h4, b64_roundtrip _ h5, b64_roundtrip _ h6,
      chains_map_roundtrip _ h7, b64_roundtrip _ h8]

/-- Witness for C9 at a concrete entry with two chains (one closed), skipped
message keys and a pending pre-key. -/
theorem claim_C9_witness :
    deserializeEntry (serializeEntry entryC9) = entryC9 :=
  claim_C9_roundtrip entryC9 (by decide)

theorem setAt_front (a b v : Bytes) (o : Nat) (ho : a.length = o) :
    setAt (a ++ b) o v = a ++ v ++ b.drop v.length := by
  have h1 : List.take o (a ++ b) = a := List.take_left' ho
  have h2 : List.drop (o + v.length) (a ++ b) = b.drop v.length := by
    rw [List.drop_append_eq_append_drop, List.drop_eq_nil_of_le (by omega),
      List.nil_append]
    congr 1
    omega
  rw [setAt, h1, h2]

theorem write_block (pre : Bytes) (o : Nat) (hpre : pre.length = o) (v : Bytes)
    (hv : v.length = 32) (n : Nat) :
    setAt (pre ++ List.replicate (32 + n) 0) o v =
      (pre ++ v) ++ List.replicate n 0 := by
  rw [setAt_front pre _ v o hpre, hv, List.drop_replicate]
  simp only [Nat.add_sub_cancel_left]

theorem build_order_init (a1 a2 a3 : Bytes) (h1 : a1.length = 32)
    (h2 : a2.length = 32) (h3 : a3.length = 32) (n : Nat) :
    setAt (setAt (setAt (setAt (List.replicate (32 + (32 + (32 + (32 + n)))) 0) 0
        (List.replicate 32 255)) 32 a1) 64 a2) 96 a3 =
      (((List.replicate 32 255 ++ a1) ++ a2) ++ a3) ++ List.replicate n 0 := by
  rw [setAt_zero]
  simp only [List.length_replicate, List.drop_replicate, Nat.add_sub_cancel_left]
  rw [write_block (List.replicate 32 255) 32 (by simp) a1 h1 (32 + (32 + n)),
    write_block (List.replicate 32 255 ++ a1) 64 (by simp [h1]) a2 h2 (32 + n),
    write_block ((List.replicate 32 255 ++ a1) ++ a2) 96 (by simp [h1, h2]) a3 h3 n]

theorem build_order_resp (a1 a2 a3 : Bytes) (h1 : a1.length = 32)
    (h2 : a2.length = 32) (h3 : a3.length = 32) (n : Nat) :
    setAt (setAt (setAt (setAt (List.replicate (32 + (32 + (32 + (32 + n)))) 0) 0
        (List.replicate 32 255)) 64 a1) 32 a2) 96 a3 =
      (((List.replicate 32 255 ++ a2) ++ a1) ++ a3) ++ List.replicate n 0 := by
  rw [setAt_zero]
  simp only [List.length_replicate, List.drop_replicate, Nat.add_sub_cancel_left]
  rw [show List.replicate (32 + (32 + (32 + n))) (0 : Nat) =
      List.replicate 32 0 ++ List.replicate (32 + (32 + n)) 0 from
    List.replicate_add 32 (32 + (32 + n)) 0]
  rw [← List.append_assoc]
  rw [write_block (List.replicate 32 255 ++ List.replicate 32 0) 64
    (by simp) a1 h1 (32 + n)]
  rw [List.append_assoc, List.append_assoc]
  rw [setAt_front (List.replicate 32 255) _ a2 32 (by simp), h2,
    List.drop_left' (by simp : (List.replicate 32 (0 : Nat)).length = 32)]
  rw [show List.replicate 32 255 ++ a2 ++ (a1 ++ List.replicate (32 + n) 0) =
      ((List.replicate 32 255 ++ a2) ++ a1) ++ List.replicate (32 + n) 0 from by
    simp [List.append_assoc]]
  rw [write_block ((List.replicate 32 255 ++ a2) ++ a1) 96 (by simp [h1, h2])
    a3 h3 n]

theorem build_a4_step (pre : Bytes) (hpre : pre.length = 128) (a4 : Bytes)
    (h4 : a4.length = 32) :
    setAt (pre ++ List.replicate 32 0) 128 a4 = pre ++ a4 := by
  have h := write_block pre 128 hpre a4 h4 0
  simpa using h

/-- C3 (amended): `initSession` builds the X3DH input as
`F ‖ X1 ‖ X2 ‖ A3 [‖ A4]` exactly as the claim states (`F` = 32 bytes of
0xff; `X1/X2` = `A1/A2` for the initiator and swapped for the responder;
`A4` appended exactly when both ephemerals are present), and the session's
root key is initially the first 32-byte HKDF chunk of
`HKDF(shared_secret, salt = 32 zero bytes, info = "WhisperText")` (the first
chunk is the same whether two or three chunks are derived).  The correction:
that is the RETURNED session's root key only for the responder; the
initiator immediately seeds the first sending chain, which replaces the root
key with the first chunk of `HKDF(DH(their_signed, fresh_ephemeral.priv),
salt = master[0], info = "WhisperRatchet")`. -/
theorem claim_C3_initSession (hmac dh : Bytes → Bytes → Bytes)
    (ourIdentity freshEphemeral ourSigned oeKP : KeyPair)
    (oe : Option KeyPair) (tip tsp : Bytes) (te : Option Bytes)
    (now : Int) (rid : Nat)
    (hdh : ∀ p v, (dh p v).length = 32)
    (hlen : ∀ k d, (hmac k d).length = 32) :
    (∀ isInit : Bool,
      builtSharedSecret dh ourIdentity ourSigned oe tip tsp te isInit =
        List.replicate 32 255 ++
          (if isInit then dh tsp ourIdentity.privKey else dh tip ourSigned.privKey) ++
          (if isInit then dh tip ourSigned.privKey else dh tsp ourIdentity.privKey) ++
          dh tsp ourSigned.privKey ++
          (match oe, te with
           | some o, some t => dh t o.privKey
           | _, _ => [])) ∧
    (∀ s, initSession hmac dh ourIdentity freshEphemeral now false oe
        (some ourSigned) tip (some tsp) none rid = .ok s →
      s.currentRatchet.rootKey =
        hkdfT1 hmac
          (builtSharedSecret dh ourIdentity ourSigned oe tip tsp (some tsp) false)
          (List.replicate 32 0) (infoBytes "WhisperText")) ∧
    (∀ s, initSession hmac dh ourIdentity freshEphemeral now true (some oeKP)
        none tip te (some tsp) rid = .ok s →
      s.currentRatchet.rootKey =
        hkdfT1 hmac (dh tsp freshEphemeral.privKey)
          (hkdfT1 hmac
            (builtSharedSecret dh ourIdentity oeKP (some oeKP) tip tsp te true)
            (List.replicate 32 0) (infoBytes "WhisperText"))
          (infoBytes "WhisperRatchet")) := by
  refine ⟨?_, ?_, ?_⟩
  · intro isInit
    rcases oe with _ | oeV <;> rcases te with _ | teV <;> cases isInit
    · simp only [builtSharedSecret, Option.isNone_none]
      norm_num
      rw [show (128 : Nat) = 32 + (32 + (32 + (32 + 0))) from by norm_num]
      rw [build_order_resp _ _ _ (hdh _ _) (hdh _ _) (hdh _ _) 0]
      simp
    · simp only [builtSharedSecret, Option.isNone_none]
      norm_num
      rw [show (128 : Nat) = 32 + (32 + (32 + (32 + 0))) from by norm_num]
      rw [build_order_init _ _ _ (hdh _ _) (hdh _ _) (hdh _ _) 0]
      simp
    · simp only [builtSharedSecret, Option.isNone_none, Option.isNone_some]
      norm_num
      rw [show (128 : Nat) = 32 + (32 + (32 + (32 + 0))) from by norm_num]
      rw [build_order_resp _ _ _ (hdh _ _) (hdh _ _) (hdh _ _) 0]
      simp
    · simp only [builtSharedSecret, Option.isNone_none, Option.isNone_some]
      norm_num
      rw [show (128 : Nat) = 32 + (32 + (32 + (32 + 0))) from by norm_num]
      rw [build_order_init _ _ _ (hdh _ _) (hdh _ _) (hdh _ _) 0]
      simp
    · simp only [builtSharedSecret, Option.isNone_none, Option.isNone_some]
      norm_num
      rw [show (128 : Nat) = 32 + (32 + (32 + (32 + 0))) from by norm_num]
      rw [build_order_resp _ _ _ (hdh _ _) (hdh _ _) (hdh _ _) 0]
      simp
    · simp only [builtSharedSecret, Option.isNone_none, Option.isNone_some]
      norm_num
      rw [show (128 : Nat) = 32 + (32 + (32 + (32 + 0))) from by norm_num]
      rw [build_order_init _ _ _ (hdh _ _) (hdh _ _) (hdh _ _) 0]
      simp
    · simp only [builtSharedSecret, Option.isNone_some]
      norm_num
      rw [show (160 : Nat) = 32 + (32 + (32 + (32 + 32))) from by norm_num]
      rw [build_order_resp _ _ _ (hdh _ _) (hdh _ _) (hdh _ _) 32]
      rw [build_a4_step _ (by simp [hdh]) _ (hdh _ _)]
      simp
    · simp only [builtSharedSecret, Option.isNone_some]
      norm_num
      rw [show (160 : Nat) = 32 + (32 + (32 + (32 + 32))) from by norm_num]
      rw [build_order_init _ _ _ (hdh _ _) (hdh _ _) (hdh _ _) 32]
      rw [build_a4_step _ (by simp [hdh]) _ (hdh _ _)]
      simp
  · intro s hs
    have hds := (deriveSecrets_ok hmac
      (builtSharedSecret dh ourIdentity ourSigned oe tip tsp (some tsp) false)
      (List.replicate 32 0) (infoBytes "WhisperText") (by simp) hlen).2.2.2
    simp only [initSession, initFinish, Bool.false_eq_true, if_false] at hs
    rw [hds] at hs
    simp only [Bind.bind, Except.bind] at hs
    cases hs
    rfl
  · intro s hs
    have hds₁ := (deriveSecrets_ok hmac
      (builtSharedSecret dh ourIdentity oeKP (some oeKP) tip tsp te true)
      (List.replicate 32 0) (infoBytes "WhisperText") (by simp) hlen).2.2.2
    simp only [initSession, initFinish, if_true] at hs
    rw [hds₁] at hs
    simp only [Bind.bind, Except.bind] at hs
    rw [calculateSendingRatchet] at hs
    simp only [List.getD_cons_zero, List.getD_cons_succ] at hs
    have hds₂ := (deriveSecrets_ok hmac (dh tsp freshEphemeral.privKey)
      (hkdfT1 hmac
        (builtSharedSecret dh ourIdentity oeKP (some oeKP) tip tsp te true)
        (List.replicate 32 0) (infoBytes "WhisperText"))
      (infoBytes "WhisperRatchet") (hlen _ _) hlen).2.2.2
    rw [hds₂] at hs
    simp only [Bind.bind, Except.bind, SessionEntry.addChain, alistLookup] at hs
    cases hs
    rfl

/-- Counterexample for C3 as stated: for a concrete INITIATOR run, the
returned session's root key differs from the first HKDF chunk derived from
the shared secret with the 32-zero-byte salt and info `"WhisperText"` — the
sending-ratchet seeding has already replaced it. -/
theorem claim_C3_counterexample :
    ((initSession hmacC dhC ⟨[5, 1], [10]⟩ ⟨[5, 2], [20]⟩ 0 true
        (some ⟨[5, 3], [30]⟩) none [5, 4] (some [5, 7]) (some [5, 6]) 1).toOption.map
      (fun s => decide (s.currentRatchet.rootKey =
        hkdfT1 hmacC
          (builtSharedSecret dhC ⟨[5, 1], [10]⟩ ⟨[5, 3], [30]⟩
            (some ⟨[5, 3], [30]⟩) [5, 4] [5, 6] (some [5, 7]) true)
          (List.replicate 32 0) (infoBytes "WhisperText")))) = some false := by
  set_option maxRecDepth 8192 in decide

/-- Witness for C3: the shared-secret layout at concrete keys, for the
responder, via the main theorem. -/
theorem claim_C3_witness :
    builtSharedSecret dhC ⟨[5, 1], [10]⟩ ⟨[5, 3], [30]⟩ none [5, 4] [5, 6]
      (some [5, 6]) false =
    List.replicate 32 255 ++ dhC [5, 4] [30] ++ dhC [5, 6] [10] ++
      dhC [5, 6] [30] ++ [] := by
  have h := (claim_C3_initSession hmacC dhC ⟨[5, 1], [10]⟩ ⟨[5, 2], [20]⟩
    ⟨[5, 3], [30]⟩ ⟨[5, 9], [90]⟩ none [5, 4] [5, 6] (some [5, 6]) 0 1
    (by intro p v; simp [dhC]) (by intro k d; simp [hmacC])).1 false
  simpa using h

theorem alistLookup_update_ne {β : Type} (l : List (Bytes × β)) (k k' : Bytes)
    (v : β) (h : k' ≠ k) :
    alistLookup (alistUpdate l k v) k' = alistLookup l k' := by
  induction l with
  | nil => rfl
  | cons p rest ih =>
    obtain ⟨pk, pv⟩ := p
    rw [alistUpdate]
    by_cases hp : pk = k
    · rw [if_pos hp, alistLookup, alistLookup,
        if_neg (fun hc : k = k' => h hc.symm),
        if_neg (fun hc : pk = k' => h (hp.symm.trans hc).symm)]
      exact ih
    · rw [if_neg hp, alistLookup, alistLookup]
      split
      · rfl
      · exact ih

theorem alistLookup_update_self {β : Type} (l : List (Bytes × β)) (k : Bytes)
    (v v' : β) (h : alistLookup l k = some v') :
    alistLookup (alistUpdate l k v) k = some v := by
  induction l with
  | nil => simp [alistLookup] at h
  | cons p rest ih =>
    obtain ⟨pk, pv⟩ := p
    rw [alistUpdate]
    by_cases hp : pk = k
    · rw [if_pos hp, alistLookup, if_pos rfl]
    · rw [alistLookup, if_neg hp] at h
      rw [if_neg hp, alistLookup, if_neg hp]
      exact ih h

theorem alistLookup_append_left {β : Type} (l₁ l₂ : List (Bytes × β)) (k : Bytes)
    (v : β) (h : alistLookup l₁ k = some v) :
    alistLookup (l₁ ++ l₂) k = some v := by
  induction l₁ with
  | nil => simp [alistLookup] at h
  | cons p rest ih =>
    obtain ⟨pk, pv⟩ := p
    rw [alistLookup] at h
    rw [List.cons_append, alistLookup]
    split
    · rwa [if_pos (by assumption)] at h
    · rw [if_neg (by assumption)] at h
      exact ih h

theorem alistLookup_append_right {β : Type} (l₁ l₂ : List (Bytes × β)) (k : Bytes)
    (h : alistLookup l₁ k = none) :
    alistLookup (l₁ ++ l₂) k = alistLookup l₂ k := by
  induction l₁ with
  | nil => rfl
  | cons p rest ih =>
    obtain ⟨pk, pv⟩ := p
    rw [alistLookup] at h
    rw [List.cons_append, alistLookup]
    split
    · rw [if_pos (by assumption)] at h
      exact absurd h (by simp)
    · rw [if_neg (by assumption)] at h
      exact ih h

theorem alistLookup_erase_ne {β : Type} (l : List (Bytes × β)) (k k' : Bytes)
    (h : k' ≠ k) : alistLookup (alistErase l k) k' = alistLookup l k' := by
  induction l with
  | nil => rfl
  | cons p rest ih =>
    obtain ⟨pk, pv⟩ := p
    by_cases hp : pk = k
    · rw [show alistErase ((pk, pv) :: rest) k = alistErase rest k from by
        simp [alistErase, List.filter_cons, hp]]
      rw [ih, alistLookup, if_neg (fun hc : pk = k' => h (hp.symm.trans hc).symm)]
    · rw [show alistErase ((pk, pv) :: rest) k = (pk, pv) :: alistErase rest k
        from by simp [alistErase, List.filter_cons, hp]]
      rw [alistLookup, alistLookup]
      split
      · rfl
      · exact ih

theorem alistLookup_eq_none_of_not_mem {β : Type} (l : List (Bytes × β))
    (k : Bytes) (h : k ∉ l.map Prod.fst) : alistLookup l k = none := by
  induction l with
  | nil => rfl
  | cons p rest ih =>
    obtain ⟨pk, pv⟩ := p
    simp only [List.map_cons, List.mem_cons, not_or] at h
    rw [alistLookup, if_neg (fun hc : pk = k => h.1 hc.symm)]
    exact ih h.2

theorem alistLookup_mem_keys {β : Type} (l : List (Bytes × β)) (k : Bytes)
    (v : β) (h : alistLookup l k = some v) : k ∈ l.map Prod.fst := by
  induction l with
  | nil => simp [alistLookup] at h
  | cons p rest ih =>
    obtain ⟨pk, pv⟩ := p
    rw [alistLookup] at h
    by_cases hp : pk = k
    · rw [List.map_cons, hp]
      exact List.mem_cons_self _ _
    · rw [if_neg hp] at h
      exact List.mem_cons_of_mem _ (ih h)

theorem alistUpdate_keys {β : Type} (l : List (Bytes × β)) (k : Bytes) (v : β) :
    (alistUpdate l k v).map Prod.fst = l.map Prod.fst := by
  induction l with
  | nil => rfl
  | cons p rest ih =>
    obtain ⟨pk, pv⟩ := p
    rw [alistUpdate]
    by_cases hp : pk = k
    · rw [if_pos hp, List.map_cons, List.map_cons, ih, hp]
    · rw [if_neg hp, List.map_cons, List.map_cons, ih]

theorem calculateRatchet_eq (hmac dh : Bytes → Bytes → Bytes) (s : SessionEntry)
    (remoteKey : Bytes) (sending : Bool)
    (hroot : s.currentRatchet.rootKey.length = 32)
    (hlen : ∀ k d, (hmac k d).length = 32)
    (hnew : alistLookup s.chains
      (if sending then s.currentRatchet.ephemeralKeyPair.pubKey else remoteKey) =
      none) :
    calculateRatchet hmac dh s remoteKey sending = .ok
      { s with
        chains :=
          (s.chains ++
            [((if sending then s.currentRatchet.ephemeralKeyPair.pubKey else remoteKey),
              ⟨⟨-1, some (hkdfT2 hmac
                (dh remoteKey s.currentRatchet.ephemeralKeyPair.privKey)
                s.currentRatchet.rootKey (infoBytes "WhisperRatchet"))⟩,
               (if sending then .sending else .receiving), []⟩)]),
        currentRatchet :=
          ({ s.currentRatchet with rootKey :=
            (hkdfT1 hmac (dh remoteKey s.currentRatchet.ephemeralKeyPair.privKey)
              s.currentRatchet.rootKey (infoBytes "WhisperRatchet")) }) } := by
  have hds := (deriveSecrets_ok hmac
    (dh remoteKey s.currentRatchet.ephemeralKeyPair.privKey)
    s.currentRatchet.rootKey (infoBytes "WhisperRatchet") hroot hlen).2.1
  rw [calculateRatchet, hds]
  simp only [Bind.bind, Except.bind, SessionEntry.addChain, hnew,
    List.getD_cons_zero, List.getD_cons_succ]
  rfl

theorem stepRatchet_eq_ss (hmac dh : Bytes → Bytes → Bytes) (newKP : KeyPair)
    (s : SessionEntry) (remoteKey : Bytes) (prevCtr : Nat) (p p2 pc : Chain)
    (hlen : ∀ k d, (hmac k d).length = 32)
    (hroot : s.currentRatchet.rootKey.length = 32)
    (hnochain : s.getChain remoteKey = none)
    (hp : s.getChain s.currentRatchet.lastRemoteEphemeralKey = some p)
    (hp2 : fillMessageKeys hmac p prevCtr = .ok p2)
    (hpc : s.getChain s.currentRatchet.ephemeralKeyPair.pubKey = some pc)
    (hLP : s.currentRatchet.lastRemoteEphemeralKey ≠
      s.currentRatchet.ephemeralKeyPair.pubKey)
    (hfresh : newKP.pubKey ∉ s.chains.map Prod.fst)
    (hfresh2 : newKP.pubKey ≠ remoteKey) :
    maybeStepRatchet hmac dh newKP s remoteKey prevCtr = .ok
      { registrationId := s.registrationId
        currentRatchet :=
          ({ ephemeralKeyPair := newKP
             lastRemoteEphemeralKey := remoteKey
             previousCounter := pc.chainKey.counter
             rootKey := (hkdfT1 hmac (dh remoteKey newKP.privKey)
               (hkdfT1 hmac (dh remoteKey s.currentRatchet.ephemeralKeyPair.privKey)
                 s.currentRatchet.rootKey (infoBytes "WhisperRatchet"))
               (infoBytes "WhisperRatchet")) })
        indexInfo := s.indexInfo
        chains :=
          (alistErase
            (alistUpdate s.chains s.currentRatchet.lastRemoteEphemeralKey
              { p2 with chainKey := { p2.chainKey with key := none } } ++
             [(remoteKey,
               ⟨⟨-1, some (hkdfT2 hmac
                 (dh remoteKey s.currentRatchet.ephemeralKeyPair.privKey)
                 s.currentRatchet.rootKey (infoBytes "WhisperRatchet"))⟩,
                .receiving, []⟩)])
            s.currentRatchet.ephemeralKeyPair.pubKey ++
           [(newKP.pubKey,
             ⟨⟨-1, some (hkdfT2 hmac (dh remoteKey newKP.privKey)
               (hkdfT1 hmac (dh remoteKey s.currentRatchet.ephemeralKeyPair.privKey)
                 s.currentRatchet.rootKey (infoBytes "WhisperRatchet"))
               (infoBytes "WhisperRatchet"))⟩, .sending, []⟩)])
        pendingPreKey := s.pendingPreKey } := by
  have hLr : s.currentRatchet.lastRemoteEphemeralKey ≠ remoteKey := by
    intro he
    rw [he, hnochain] at hp
    exact Option.noConfusion hp
  have hPr : s.currentRatchet.ephemeralKeyPair.pubKey ≠ remoteKey := by
    intro he
    rw [he, hnochain] at hpc
    exact Option.noConfusion hpc
  have hPmem : s.currentRatchet.ephemeralKeyPair.pubKey ∈ s.chains.map Prod.fst :=
    alistLookup_mem_keys _ _ _ hpc
  have hNP : newKP.pubKey ≠ s.currentRatchet.ephemeralKeyPair.pubKey := by
    intro he
    exact hfresh (he ▸ hPmem)
  have hnew1 : alistLookup
      (alistUpdate s.chains s.currentRatchet.lastRemoteEphemeralKey
        { p2 with chainKey := { p2.chainKey with key := none } }) remoteKey = none := by
    rw [alistLookup_update_ne _ _ _ _ (Ne.symm hLr)]
    exact hnochain
  have h3 : alistLookup
      (alistUpdate s.chains s.currentRatchet.lastRemoteEphemeralKey
        { p2 with chainKey := { p2.chainKey with key := none } } ++
       [(remoteKey,
         ⟨⟨-1, some (hkdfT2 hmac
           (dh remoteKey s.currentRatchet.ephemeralKeyPair.privKey)
           s.currentRatchet.rootKey (infoBytes "WhisperRatchet"))⟩,
          .receiving, []⟩)])
      s.currentRatchet.ephemeralKeyPair.pubKey = some pc := by
    apply alistLookup_append_left
    rw [alistLookup_update_ne _ _ _ _ (Ne.symm hLP)]
    exact hpc
  have hnew2 : alistLookup
      (alistErase
        (alistUpdate s.chains s.currentRatchet.lastRemoteEphemeralKey
          { p2 with chainKey := { p2.chainKey with key := none } } ++
         [(remoteKey,
           ⟨⟨-1, some (hkdfT2 hmac
             (dh remoteKey s.currentRatchet.ephemeralKeyPair.privKey)
             s.currentRatchet.rootKey (infoBytes "WhisperRatchet"))⟩,
            .receiving, []⟩)])
        s.currentRatchet.ephemeralKeyPair.pubKey) newKP.pubKey = none := by
    rw [alistLookup_erase_ne _ _ _ hNP]
    rw [alistLookup_append_right]
    · rw [alistLookup, if_neg (Ne.symm hfresh2)]
      rfl
    · apply alistLookup_eq_none_of_not_mem
      rw [alistUpdate_keys]
      exact hfresh
  rw [maybeStepRatchet, if_neg (by rw [hnochain]; simp)]
  simp only [hp, hp2, Bind.bind, Except.bind, pure, Except.pure,
    SessionEntry.putChain]
  rw [calculateRatchet_eq hmac dh _ remoteKey false
    (by exact hroot) hlen (by simpa using hnew1)]
  simp only [Bool.false_eq_true, if_false, Bind.bind, Except.bind,
    SessionEntry.getChain]
  rw [h3]
  simp only [SessionEntry.deleteChain]
  rw [h3]
  simp only [Bind.bind, Except.bind]
  rw [calculateRatchet_eq hmac dh _ remoteKey true
    (by simp only [hkdfT1]; exact hlen _ _) hlen (by simpa using hnew2)]
  simp only [Bind.bind, Except.bind, pure, Except.pure, if_true]

theorem stepRatchet_eq_sn (hmac dh : Bytes → Bytes → Bytes) (newKP : KeyPair)
    (s : SessionEntry) (remoteKey : Bytes) (prevCtr : Nat) (p p2 : Chain)
    (hlen : ∀ k d, (hmac k d).length = 32)
    (hroot : s.currentRatchet.rootKey.length = 32)
    (hnochain : s.getChain remoteKey = none)
    (hp : s.getChain s.currentRatchet.lastRemoteEphemeralKey = some p)
    (hp2 : fillMessageKeys hmac p prevCtr = .ok p2)
    (hpcn : s.getChain s.currentRatchet.ephemeralKeyPair.pubKey = none)
    (hPr : s.currentRatchet.ephemeralKeyPair.pubKey ≠ remoteKey)
    (hfresh : newKP.pubKey ∉ s.chains.map Prod.fst)
    (hfresh2 : newKP.pubKey ≠ remoteKey) :
    maybeStepRatchet hmac dh newKP s remoteKey prevCtr = .ok
      { registrationId := s.registrationId
        currentRatchet :=
          ({ ephemeralKeyPair := newKP
             lastRemoteEphemeralKey := remoteKey
             previousCounter := s.currentRatchet.previousCounter
             rootKey := (hkdfT1 hmac (dh remoteKey newKP.privKey)
               (hkdfT1 hmac (dh remoteKey s.currentRatchet.ephemeralKeyPair.privKey)
                 s.currentRatchet.rootKey (infoBytes "WhisperRatchet"))
               (infoBytes "WhisperRatchet")) })
        indexInfo := s.indexInfo
        chains :=
          ((alistUpdate s.chains s.currentRatchet.lastRemoteEphemeralKey
              { p2 with chainKey := { p2.chainKey with key := none } } ++
            [(remoteKey,
              ⟨⟨-1, some (hkdfT2 hmac
                (dh remoteKey s.currentRatchet.ephemeralKeyPair.privKey)
                s.currentRatchet.rootKey (infoBytes "WhisperRatchet"))⟩,
               .receiving, []⟩)]) ++
           [(newKP.pubKey,
             ⟨⟨-1, some (hkdfT2 hmac (dh remoteKey newKP.privKey)
               (hkdfT1 hmac (dh remoteKey s.currentRatchet.ephemeralKeyPair.privKey)
                 s.currentRatchet.rootKey (infoBytes "WhisperRatchet"))
               (infoBytes "WhisperRatchet"))⟩, .sending, []⟩)])
        pendingPreKey := s.pendingPreKey } := by
  have hLr : s.currentRatchet.lastRemoteEphemeralKey ≠ remoteKey := by
    intro he
    rw [he, hnochain] at hp
    exact Option.noConfusion hp
  have hLP : s.currentRatchet.lastRemoteEphemeralKey ≠
      s.currentRatchet.ephemeralKeyPair.pubKey := by
    intro he
    rw [← he, hp] at hpcn
    exact Option.noConfusion hpcn
  have hnew1 : alistLookup
      (alistUpdate s.chains s.currentRatchet.lastRemoteEphemeralKey
        { p2 with chainKey := { p2.chainKey with key := none } }) remoteKey = none := by
    rw [alistLookup_update_ne _ _ _ _ (Ne.symm hLr)]
    exact hnochain
  have h3 : alistLookup
      (alistUpdate s.chains s.currentRatchet.lastRemoteEphemeralKey
        { p2 with chainKey := { p2.chainKey with key := none } } ++
       [(remoteKey,
         ⟨⟨-1, some (hkdfT2 hmac
           (dh remoteKey s.currentRatchet.ephemeralKeyPair.privKey)
           s.currentRatchet.rootKey (infoBytes "WhisperRatchet"))⟩,
          .receiving, []⟩)])
      s.currentRatchet.ephemeralKeyPair.pubKey = none := by
    rw [alistLookup_append_right]
    · rw [alistLookup, if_neg (Ne.symm hPr)]
      rfl
    · rw [alistLookup_update_ne _ _ _ _ (Ne.symm hLP)]
      exact hpcn
  have hnew2 : alistLookup
      (alistUpdate s.chains s.currentRatchet.lastRemoteEphemeralKey
        { p2 with chainKey := { p2.chainKey with key := none } } ++
       [(remoteKey,
         ⟨⟨-1, some (hkdfT2 hmac
           (dh remoteKey s.currentRatchet.ephemeralKeyPair.privKey)
           s.currentRatchet.rootKey (infoBytes "WhisperRatchet"))⟩,
          .receiving, []⟩)]) newKP.pubKey = none := by
    rw [alistLookup_append_right]
    · rw [alistLookup, if_neg (Ne.symm hfresh2)]
      rfl
    · apply alistLookup_eq_none_of_not_mem
      rw [alistUpdate_keys]
      exact hfresh
  rw [maybeStepRatchet, if_neg (by rw [hnochain]; simp)]
  simp only [hp, hp2, Bind.bind, Except.bind, pure, Except.pure,
    SessionEntry.putChain]
  rw [calculateRatchet_eq hmac dh _ remoteKey false
    (by exact hroot) hlen (by simpa using hnew1)]
  simp only [Bool.false_eq_true, if_false, Bind.bind, Except.bind,
    SessionEntry.getChain]
  rw [h3]
  simp only [Bind.bind, Except.bind]
  rw [calculateRatchet_eq hmac dh _ remoteKey true
    (by simp only [hkdfT1]; exact hlen _ _) hlen (by simpa using hnew2)]
  simp only [Bind.bind, Except.bind, pure, Except.pure, if_true]

theorem stepRatchet_eq_ns (hmac dh : Bytes → Bytes → Bytes) (newKP : KeyPair)
    (s : SessionEntry) (remoteKey : Bytes) (prevCtr : Nat) (pc : Chain)
    (hlen : ∀ k d, (hmac k d).length = 32)
    (hroot : s.currentRatchet.rootKey.length = 32)
    (hnochain : s.getChain remoteKey = none)
    (hpn : s.getChain s.currentRatchet.lastRemoteEphemeralKey = none)
    (hpc : s.getChain s.currentRatchet.ephemeralKeyPair.pubKey = some pc)
    (hfresh : newKP.pubKey ∉ s.chains.map Prod.fst)
    (hfresh2 : newKP.pubKey ≠ remoteKey) :
    maybeStepRatchet hmac dh newKP s remoteKey prevCtr = .ok
      { registrationId := s.registrationId
        currentRatchet :=
          ({ ephemeralKeyPair := newKP
             lastRemoteEphemeralKey := remoteKey
             previousCounter := pc.chainKey.counter
             rootKey := (hkdfT1 hmac (dh remoteKey newKP.privKey)
               (hkdfT1 hmac (dh remoteKey s.currentRatchet.ephemeralKeyPair.privKey)
                 s.currentRatchet.rootKey (infoBytes "WhisperRatchet"))
               (infoBytes "WhisperRatchet")) })
        indexInfo := s.indexInfo
        chains :=
          (alistErase
            (s.chains ++
             [(remoteKey,
               ⟨⟨-1, some (hkdfT2 hmac
                 (dh remoteKey s.currentRatchet.ephemeralKeyPair.privKey)
                 s.currentRatchet.rootKey (infoBytes "WhisperRatchet"))⟩,
                .receiving, []⟩)])
            s.currentRatchet.ephemeralKeyPair.pubKey ++
           [(newKP.pubKey,
             ⟨⟨-1, some (hkdfT2 hmac (dh remoteKey newKP.privKey)
               (hkdfT1 hmac (dh remoteKey s.currentRatchet.ephemeralKeyPair.privKey)
                 s.currentRatchet.rootKey (infoBytes "WhisperRatchet"))
               (infoBytes "WhisperRatchet"))⟩, .sending, []⟩)])
        pendingPreKey := s.pendingPreKey } := by
  have hPmem : s.currentRatchet.ephemeralKeyPair.pubKey ∈ s.chains.map Prod.fst :=
    alistLookup_mem_keys _ _ _ hpc
  have hNP : newKP.pubKey ≠ s.currentRatchet.ephemeralKeyPair.pubKey := by
    intro he
    exact hfresh (he ▸ hPmem)
  have h3 : alistLookup
      (s.chains ++
       [(remoteKey,
         ⟨⟨-1, some (hkdfT2 hmac
           (dh remoteKey s.currentRatchet.ephemeralKeyPair.privKey)
           s.currentRatchet.rootKey (infoBytes "WhisperRatchet"))⟩,
          .receiving, []⟩)])
      s.currentRatchet.ephemeralKeyPair.pubKey = some pc :=
    alistLookup_append_left _ _ _ _ hpc
  have hnew2 : alistLookup
      (alistErase
        (s.chains ++
         [(remoteKey,
           ⟨⟨-1, some (hkdfT2 hmac
             (dh remoteKey s.currentRatchet.ephemeralKeyPair.privKey)
             s.currentRatchet.rootKey (infoBytes "WhisperRatchet"))⟩,
            .receiving, []⟩)])
        s.currentRatchet.ephemeralKeyPair.pubKey) newKP.pubKey = none := by
    rw [alistLookup_erase_ne _ _ _ hNP]
    rw [alistLookup_append_right]
    · rw [alistLookup, if_neg (Ne.symm hfresh2)]
      rfl
    · exact alistLookup_eq_none_of_not_mem _ _ hfresh
  rw [maybeStepRatchet, if_neg (by rw [hnochain]; simp)]
  simp only [hpn, Bind.bind, Except.bind, pure, Except.pure]
  rw [calculateRatchet_eq hmac dh _ remoteKey false
    (by exact hroot) hlen (by simpa using hnochain)]
  simp only [Bool.false_eq_true, if_false, Bind.bind, Except.bind,
    SessionEntry.getChain]
  rw [h3]
  simp only [SessionEntry.deleteChain]
  rw [h3]
  simp only [Bind.bind, Except.bind]
  rw [calculateRatchet_eq hmac dh _ remoteKey true
    (by simp only [hkdfT1]; exact hlen _ _) hlen (by simpa using hnew2)]
  simp only [Bind.bind, Except.bind, pure, Except.pure, if_true]

theorem stepRatchet_eq_nn (hmac dh : Bytes → Bytes → Bytes) (newKP : KeyPair)
    (s : SessionEntry) (remoteKey : Bytes) (prevCtr : Nat)
    (hlen : ∀ k d, (hmac k d).length = 32)
    (hroot : s.currentRatchet.rootKey.length = 32)
    (hnochain : s.getChain remoteKey = none)
    (hpn : s.getChain s.currentRatchet.lastRemoteEphemeralKey = none)
    (hpcn : s.getChain s.currentRatchet.ephemeralKeyPair.pubKey = none)
    (hPr : s.currentRatchet.ephemeralKeyPair.pubKey ≠ remoteKey)
    (hfresh : newKP.pubKey ∉ s.chains.map Prod.fst)
    (hfresh2 : newKP.pubKey ≠ remoteKey) :
    maybeStepRatchet hmac dh newKP s remoteKey prevCtr = .ok
      { registrationId := s.registrationId
        currentRatchet :=
          ({ ephemeralKeyPair := newKP
             lastRemoteEphemeralKey := remoteKey
             previousCounter := s.currentRatchet.previousCounter
             rootKey := (hkdfT1 hmac (dh remoteKey newKP.privKey)
               (hkdfT1 hmac (dh remoteKey s.currentRatchet.ephemeralKeyPair.privKey)
                 s.currentRatchet.rootKey (infoBytes "WhisperRatchet"))
               (infoBytes "WhisperRatchet")) })
        indexInfo := s.indexInfo
        chains :=
          ((s.chains ++
            [(remoteKey,
              ⟨⟨-1, some (hkdfT2 hmac
                (dh remoteKey s.currentRatchet.ephemeralKeyPair.privKey)
                s.currentRatchet.rootKey (infoBytes "WhisperRatchet"))⟩,
               .receiving, []⟩)]) ++
           [(newKP.pubKey,
             ⟨⟨-1, some (hkdfT2 hmac (dh remoteKey newKP.privKey)
               (hkdfT1 hmac (dh remoteKey s.currentRatchet.ephemeralKeyPair.privKey)
                 s.currentRatchet.rootKey (infoBytes "WhisperRatchet"))
               (infoBytes "WhisperRatchet"))⟩, .sending, []⟩)])
        pendingPreKey := s.pendingPreKey } := by
  have h3 : alistLookup
      (s.chains ++
       [(remoteKey,
         ⟨⟨-1, some (hkdfT2 hmac
           (dh remoteKey s.currentRatchet.ephemeralKeyPair.privKey)
           s.currentRatchet.rootKey (infoBytes "WhisperRatchet"))⟩,
          .receiving, []⟩)])
      s.currentRatchet.ephemeralKeyPair.pubKey = none := by
    rw [alistLookup_append_right]
    · rw [alistLookup, if_neg (Ne.symm hPr)]
      rfl
    · exact hpcn
  have hnew2 : alistLookup
      (s.chains ++
       [(remoteKey,
         ⟨⟨-1, some (hkdfT2 hmac
           (dh remoteKey s.currentRatchet.ephemeralKeyPair.privKey)
           s.currentRatchet.rootKey (infoBytes "WhisperRatchet"))⟩,
          .receiving, []⟩)]) newKP.pubKey = none := by
    rw [alistLookup_append_right]
    · rw [alistLookup, if_neg (Ne.symm hfresh2)]
      rfl
    · exact alistLookup_eq_none_of_not_mem _ _ hfresh
  rw [maybeStepRatchet, if_neg (by rw [hnochain]; simp)]
  simp only [hpn, Bind.bind, Except.bind, pure, Except.pure]
  rw [calculateRatchet_eq hmac dh _ remoteKey false
    (by exact hroot) hlen (by simpa using hnochain)]
  simp only [Bool.false_eq_true, if_false, Bind.bind, Except.bind,
    SessionEntry.getChain]
  rw [h3]
  simp only [Bind.bind, Except.bind]
  rw [calculateRatchet_eq hmac dh _ remoteKey true
    (by simp only [hkdfT1]; exact hlen _ _) hlen (by simpa using hnew2)]
  simp only [Bind.bind, Except.bind, pure, Except.pure, if_true]

theorem alistLookup_erase_self {β : Type} (l : List (Bytes × β)) (k : Bytes) :
    alistLookup (alistErase l k) k = none := by
  induction l with
  | nil => rfl
  | cons p rest ih =>
    obtain ⟨pk, pv⟩ := p
    by_cases hp : pk = k
    · rw [show alistErase ((pk, pv) :: rest) k = alistErase rest k from by
        simp [alistErase, List.filter_cons, hp]]
      exact ih
    · rw [show alistErase ((pk, pv) :: rest) k = (pk, pv) :: alistErase rest k
        from by simp [alistErase, List.filter_cons, hp]]
      rw [alistLookup, if_neg hp]
      exact ih

theorem hmacC_len (k d : Bytes) : (hmacC k d).length = 32 := by
  simp [hmacC]

/-- **C4**: `maybeStepRatchet(session, remote_key, previous_counter)` is a
no-op when a chain keyed by `remote_key` already exists; otherwise (under the
well-formedness side conditions: 32-byte HMAC outputs and root key, a fresh
ephemeral key pair, distinct last-remote / own-ratchet / remote keys, and the
previous receiving chain fillable to `previous_counter`) it returns a session
that (1) has the previous receiving chain filled and closed (its
`chainKey.key` erased, counter and skipped `messageKeys` of the filled chain
retained), (2) has a RECEIVING chain for `remote_key`, (3) has
`previousCounter` set to the prior sending chain's final counter with that
chain deleted when it existed (and `previousCounter` unchanged otherwise),
(4) carries the fresh ephemeral key pair, (5) has a new SENDING chain keyed
by the fresh public key, and (6) records `remote_key` as
`lastRemoteEphemeralKey`. -/
theorem claim_C4_maybeStepRatchet (hmac dh : Bytes → Bytes → Bytes)
    (newKP : KeyPair) (s : SessionEntry) (remoteKey : Bytes) (prevCtr : Nat)
    (hlen : ∀ k d, (hmac k d).length = 32)
    (hroot : s.currentRatchet.rootKey.length = 32)
    (hnochain : s.getChain remoteKey = none)
    (hfill : ∀ p, s.getChain s.currentRatchet.lastRemoteEphemeralKey = some p →
      ∃ p2, fillMessageKeys hmac p prevCtr = .ok p2)
    (hLP : s.currentRatchet.lastRemoteEphemeralKey ≠
      s.currentRatchet.ephemeralKeyPair.pubKey)
    (hPr : s.currentRatchet.ephemeralKeyPair.pubKey ≠ remoteKey)
    (hfresh : newKP.pubKey ∉ s.chains.map Prod.fst)
    (hfresh2 : newKP.pubKey ≠ remoteKey) :
    (∀ s0 : SessionEntry, (s0.getChain remoteKey).isSome →
      maybeStepRatchet hmac dh newKP s0 remoteKey prevCtr = .ok s0) ∧
    ∃ s', maybeStepRatchet hmac dh newKP s remoteKey prevCtr = .ok s' ∧
      (∀ p p2, s.getChain s.currentRatchet.lastRemoteEphemeralKey = some p →
        fillMessageKeys hmac p prevCtr = .ok p2 →
        s'.getChain s.currentRatchet.lastRemoteEphemeralKey =
          some { p2 with chainKey := { p2.chainKey with key := none } }) ∧
      (∃ ck, s'.getChain remoteKey =
        some ⟨⟨-1, some ck⟩, ChainType.receiving, []⟩) ∧
      (∀ pc, s.getChain s.currentRatchet.ephemeralKeyPair.pubKey = some pc →
        s'.currentRatchet.previousCounter = pc.chainKey.counter ∧
        s'.getChain s.currentRatchet.ephemeralKeyPair.pubKey = none) ∧
      (s.getChain s.currentRatchet.ephemeralKeyPair.pubKey = none →
        s'.currentRatchet.previousCounter = s.currentRatchet.previousCounter) ∧
      s'.currentRatchet.ephemeralKeyPair = newKP ∧
      (∃ ck, s'.getChain newKP.pubKey =
        some ⟨⟨-1, some ck⟩, ChainType.sending, []⟩) ∧
      s'.currentRatchet.lastRemoteEphemeralKey = remoteKey := by
  constructor
  · intro s0 h0
    rw [maybeStepRatchet, if_pos h0]
  cases hP : s.getChain s.currentRatchet.ephemeralKeyPair.pubKey with
  | some pc =>
    have hPmem : s.currentRatchet.ephemeralKeyPair.pubKey ∈ s.chains.map Prod.fst :=
      alistLookup_mem_keys _ _ _ hP
    have hNP : newKP.pubKey ≠ s.currentRatchet.ephemeralKeyPair.pubKey := by
      intro he
      exact hfresh (he ▸ hPmem)
    cases hL : s.getChain s.currentRatchet.lastRemoteEphemeralKey with
    | some p =>
      obtain ⟨p2, hp2⟩ := hfill p hL
      have hLr : s.currentRatchet.lastRemoteEphemeralKey ≠ remoteKey := by
        intro he
        rw [he, hnochain] at hL
        exact Option.noConfusion hL
      refine ⟨_, stepRatchet_eq_ss hmac dh newKP s remoteKey prevCtr p p2 pc
        hlen hroot hnochain hL hp2 hP hLP hfresh hfresh2,
        ?_, ?_, ?_, ?_, rfl, ?_, rfl⟩
      · intro p' p2' hL' h2'
        injection hL' with hpp
        subst hpp
        rw [hp2] at h2'
        injection h2' with hqq
        subst hqq
        show alistLookup _ _ = _
        apply alistLookup_append_left
        rw [alistLookup_erase_ne _ _ _ hLP]
        apply alistLookup_append_left
        exact alistLookup_update_self _ _ _ _ hL
      · refine ⟨hkdfT2 hmac (dh remoteKey s.currentRatchet.ephemeralKeyPair.privKey)
          s.currentRatchet.rootKey (infoBytes "WhisperRatchet"), ?_⟩
        show alistLookup _ _ = _
        apply alistLookup_append_left
        rw [alistLookup_erase_ne _ _ _ (Ne.symm hPr)]
        rw [alistLookup_append_right]
        · rw [alistLookup, if_pos rfl]
        · rw [alistLookup_update_ne _ _ _ _ (Ne.symm hLr)]
          exact hnochain
      · intro pc' hpc'
        injection hpc' with hcc
        subst hcc
        refine ⟨rfl, ?_⟩
        show alistLookup _ _ = _
        rw [alistLookup_append_right]
        · rw [alistLookup, if_neg hNP]
          rfl
        · exact alistLookup_erase_self _ _
      · intro hPn
        exact Option.noConfusion hPn
      · refine ⟨hkdfT2 hmac (dh remoteKey newKP.privKey)
          (hkdfT1 hmac (dh remoteKey s.currentRatchet.ephemeralKeyPair.privKey)
            s.currentRatchet.rootKey (infoBytes "WhisperRatchet"))
          (infoBytes "WhisperRatchet"), ?_⟩
        show alistLookup _ _ = _
        rw [alistLookup_append_right]
        · rw [alistLookup, if_pos rfl]
        · rw [alistLookup_erase_ne _ _ _ hNP]
          rw [alistLookup_append_right]
          · rw [alistLookup, if_neg (Ne.symm hfresh2)]
            rfl
          · apply alistLookup_eq_none_of_not_mem
            rw [alistUpdate_keys]
            exact hfresh
    | none =>
      refine ⟨_, stepRatchet_eq_ns hmac dh newKP s remoteKey prevCtr pc
        hlen hroot hnochain hL hP hfresh hfresh2,
        ?_, ?_, ?_, ?_, rfl, ?_, rfl⟩
      · intro p' p2' hL' h2'
        exact Option.noConfusion hL'
      · refine ⟨hkdfT2 hmac (dh remoteKey s.currentRatchet.ephemeralKeyPair.privKey)
          s.currentRatchet.rootKey (infoBytes "WhisperRatchet"), ?_⟩
        show alistLookup _ _ = _
        apply alistLookup_append_left
        rw [alistLookup_erase_ne _ _ _ (Ne.symm hPr)]
        rw [alistLookup_append_right]
        · rw [alistLookup, if_pos rfl]
        · exact hnochain
      · intro pc' hpc'
        injection hpc' with hcc
        subst hcc
        refine ⟨rfl, ?_⟩
        show alistLookup _ _ = _
        rw [alistLookup_append_right]
        · rw [alistLookup, if_neg hNP]
          rfl
        · exact alistLookup_erase_self _ _
      · intro hPn
        exact Option.noConfusion hPn
      · refine ⟨hkdfT2 hmac (dh remoteKey newKP.privKey)
          (hkdfT1 hmac (dh remoteKey s.currentRatchet.ephemeralKeyPair.privKey)
            s.currentRatchet.rootKey (infoBytes "WhisperRatchet"))
          (infoBytes "WhisperRatchet"), ?_⟩
        show alistLookup _ _ = _
        rw [alistLookup_append_right]
        · rw [alistLookup, if_pos rfl]
        · rw [alistLookup_erase_ne _ _ _ hNP]
          rw [alistLookup_append_right]
          · rw [alistLookup, if_neg (Ne.symm hfresh2)]
            rfl
          · exact alistLookup_eq_none_of_not_mem _ _ hfresh
  | none =>
    cases hL : s.getChain s.currentRatchet.lastRemoteEphemeralKey with
    | some p =>
      obtain ⟨p2, hp2⟩ := hfill p hL
      have hLr : s.currentRatchet.lastRemoteEphemeralKey ≠ remoteKey := by
        intro he
        rw [he, hnochain] at hL
        exact Option.noConfusion hL
      refine ⟨_, stepRatchet_eq_sn hmac dh newKP s remoteKey prevCtr p p2
        hlen hroot hnochain hL hp2 hP hPr hfresh hfresh2,
        ?_, ?_, ?_, fun _ => rfl, rfl, ?_, rfl⟩
      · intro p' p2' hL' h2'
        injection hL' with hpp
        subst hpp
        rw [hp2] at h2'
        injection h2' with hqq
        subst hqq
        show alistLookup _ _ = _
        apply alistLookup_append_left
        apply alistLookup_append_left
        exact alistLookup_update_self _ _ _ _ hL
      · refine ⟨hkdfT2 hmac (dh remoteKey s.currentRatchet.ephemeralKeyPair.privKey)
          s.currentRatchet.rootKey (infoBytes "WhisperRatchet"), ?_⟩
        show alistLookup _ _ = _
        apply alistLookup_append_left
        rw [alistLookup_append_right]
        · rw [alistLookup, if_pos rfl]
        · rw [alistLookup_update_ne _ _ _ _ (Ne.symm hLr)]
          exact hnochain
      · intro pc' hpc'
        exact Option.noConfusion hpc'
      · refine ⟨hkdfT2 hmac (dh remoteKey newKP.privKey)
          (hkdfT1 hmac (dh remoteKey s.currentRatchet.ephemeralKeyPair.privKey)
            s.currentRatchet.rootKey (infoBytes "WhisperRatchet"))
          (infoBytes "WhisperRatchet"), ?_⟩
        show alistLookup _ _ = _
        rw [alistLookup_append_right]
        · rw [alistLookup, if_pos rfl]
        · rw [alistLookup_append_right]
          · rw [alistLookup, if_neg (Ne.symm hfresh2)]
            rfl
          · apply alistLookup_eq_none_of_not_mem
            rw [alistUpdate_keys]
            exact hfresh
    | none =>
      refine ⟨_, stepRatchet_eq_nn hmac dh newKP s remoteKey prevCtr
        hlen hroot hnochain hL hP hPr hfresh hfresh2,
        ?_, ?_, ?_, fun _ => rfl, rfl, ?_, rfl⟩
      · intro p' p2' hL' h2'
        exact Option.noConfusion hL'
      · refine ⟨hkdfT2 hmac (dh remoteKey s.currentRatchet.ephemeralKeyPair.privKey)
          s.currentRatchet.rootKey (infoBytes "WhisperRatchet"), ?_⟩
        show alistLookup _ _ = _
        apply alistLookup_append_left
        rw [alistLookup_append_right]
        · rw [alistLookup, if_pos rfl]
        · exact hnochain
      · intro pc' hpc'
        exact Option.noConfusion hpc'
      · refine ⟨hkdfT2 hmac (dh remoteKey newKP.privKey)
          (hkdfT1 hmac (dh remoteKey s.currentRatchet.ephemeralKeyPair.privKey)
            s.currentRatchet.rootKey (infoBytes "WhisperRatchet"))
          (infoBytes "WhisperRatchet"), ?_⟩
        show alistLookup _ _ = _
        rw [alistLookup_append_right]
        · rw [alistLookup, if_pos rfl]
        · rw [alistLookup_append_right]
          · rw [alistLookup, if_neg (Ne.symm hfresh2)]
            rfl
          · exact alistLookup_eq_none_of_not_mem _ _ hfresh

/-- Concrete instance of the C4 theorem on `sessionC4` with remote key `[3]`,
fresh pair `⟨[4], [5]⟩` and previous counter `0`. -/
theorem claim_C4_witness :
    sessionC4.getChain [3] = none ∧
    ((∀ s0 : SessionEntry, (s0.getChain [3]).isSome →
        maybeStepRatchet hmacC dhC ⟨[4], [5]⟩ s0 [3] 0 = .ok s0) ∧
      ∃ s', maybeStepRatchet hmacC dhC ⟨[4], [5]⟩ sessionC4 [3] 0 = .ok s' ∧
        (∀ p p2,
          sessionC4.getChain sessionC4.currentRatchet.lastRemoteEphemeralKey =
            some p →
          fillMessageKeys hmacC p 0 = .ok p2 →
          s'.getChain sessionC4.currentRatchet.lastRemoteEphemeralKey =
            some { p2 with chainKey := { p2.chainKey with key := none } }) ∧
        (∃ ck, s'.getChain [3] =
          some ⟨⟨-1, some ck⟩, ChainType.receiving, []⟩) ∧
        (∀ pc,
          sessionC4.getChain sessionC4.currentRatchet.ephemeralKeyPair.pubKey =
            some pc →
          s'.currentRatchet.previousCounter = pc.chainKey.counter ∧
          s'.getChain sessionC4.currentRatchet.ephemeralKeyPair.pubKey =
            none) ∧
        (sessionC4.getChain sessionC4.currentRatchet.ephemeralKeyPair.pubKey =
            none →
          s'.currentRatchet.previousCounter =
            sessionC4.currentRatchet.previousCounter) ∧
        s'.currentRatchet.ephemeralKeyPair = (⟨[4], [5]⟩ : KeyPair) ∧
        (∃ ck, s'.getChain [4] =
          some ⟨⟨-1, some ck⟩, ChainType.sending, []⟩) ∧
        s'.currentRatchet.lastRemoteEphemeralKey = [3]) :=
  ⟨rfl,
    claim_C4_maybeStepRatchet hmacC dhC ⟨[4], [5]⟩ sessionC4 [3] 0
      hmacC_len rfl rfl
      (by
        intro p hp
        have h : (⟨⟨0, some (List.replicate 32 3)⟩, ChainType.receiving, []⟩ :
            Chain) = p := Option.some.inj hp
        subst h
        exact ⟨_, rfl⟩)
      (by decide) (by decide) (by decide) (by decide)⟩

theorem alistLookup_mem_pair {β : Type} (l : List (Bytes × β)) (k : Bytes)
    (v : β) (h : alistLookup l k = some v) : (k, v) ∈ l := by
  induction l with
  | nil => simp [alistLookup] at h
  | cons p rest ih =>
    obtain ⟨pk, pv⟩ := p
    rw [alistLookup] at h
    by_cases hp : pk = k
    · subst hp
      rw [if_pos rfl] at h
      injection h with h2
      subst h2
      exact List.mem_cons_self _ _
    · rw [if_neg hp] at h
      exact List.mem_cons_of_mem _ (ih h)

theorem alistLookup_none_not_mem {β : Type} (l : List (Bytes × β)) (k : Bytes)
    (h : alistLookup l k = none) : k ∉ l.map Prod.fst := by
  induction l with
  | nil => simp
  | cons p rest ih =>
    obtain ⟨pk, pv⟩ := p
    rw [alistLookup] at h
    by_cases hp : pk = k
    · rw [if_pos hp] at h
      exact Option.noConfusion h
    · rw [if_neg hp] at h
      simp only [List.map_cons, List.mem_cons]
      rintro (he | he)
      · exact hp he.symm
      · exact ih h he

theorem alistUpdate_mem {β : Type} (l : List (Bytes × β)) (k : Bytes) (v : β)
    (kc : Bytes × β) (h : kc ∈ alistUpdate l k v) : kc = (k, v) ∨ kc ∈ l := by
  induction l with
  | nil => exact absurd h (List.not_mem_nil kc)
  | cons p rest ih =>
    obtain ⟨pk, pv⟩ := p
    rw [alistUpdate] at h
    rcases List.mem_cons.mp h with he | he
    · by_cases hp : pk = k
      · rw [if_pos hp] at he
        exact Or.inl he
      · rw [if_neg hp] at he
        exact Or.inr (List.mem_cons.mpr (Or.inl he))
    · rcases ih he with h1 | h1
      · exact Or.inl h1
      · exact Or.inr (List.mem_cons.mpr (Or.inr h1))

theorem alistErase_mem {β : Type} (l : List (Bytes × β)) (k : Bytes)
    (kc : Bytes × β) (h : kc ∈ alistErase l k) : kc ∈ l ∧ kc.1 ≠ k := by
  rw [alistErase] at h
  have h2 := List.mem_filter.mp h
  exact ⟨h2.1, by simpa using h2.2⟩

theorem alistErase_keys_sublist {β : Type} (l : List (Bytes × β)) (k : Bytes) :
    List.Sublist ((alistErase l k).map Prod.fst) (l.map Prod.fst) := by
  rw [alistErase]
  exact (List.filter_sublist _).map _

theorem fillAux_chainType (hmac : Bytes → Bytes → Bytes) (steps : Nat)
    (chain : Chain) (counter : Nat) (c' : Chain)
    (h : fillMessageKeysAux hmac chain counter steps = .ok c') :
    c'.chainType = chain.chainType := by
  induction steps generalizing chain with
  | zero =>
    rw [fillMessageKeysAux] at h
    injection h with h
    rw [← h]
  | succ n ih =>
    rw [fillMessageKeysAux] at h
    split at h
    · split at h
      · exact Except.noConfusion h
      · rcases hck : chain.chainKey.key with _ | key
        · rw [hck] at h
          exact Except.noConfusion h
        · rw [hck] at h
          have h2 := ih { chain with
              chainKey := { counter := chain.chainKey.counter + 1,
                            key := some (hmac key [2]) },
              messageKeys := mkInsert chain.messageKeys
                (chain.chainKey.counter + 1) (hmac key [1]) } h
          exact h2
    · injection h with h
      rw [← h]

theorem fill_chainType (hmac : Bytes → Bytes → Bytes) (chain : Chain)
    (counter : Nat) (c' : Chain)
    (h : fillMessageKeys hmac chain counter = .ok c') :
    c'.chainType = chain.chainType :=
  fillAux_chainType hmac _ chain counter c' h

theorem keys_erase_append_nodup (X : List (Bytes × Chain)) (P np : Bytes)
    (cS : Chain) (hnd : (X.map Prod.fst).Nodup) (hnp : np ∉ X.map Prod.fst) :
    ((alistErase X P ++ [(np, cS)]).map Prod.fst).Nodup := by
  rw [List.map_append, List.nodup_append]
  refine ⟨List.Nodup.sublist (alistErase_keys_sublist X P) hnd, by simp, ?_⟩
  intro a ha hb
  have haX : a ∈ X.map Prod.fst := (alistErase_keys_sublist X P).subset ha
  rw [show ([(np, cS)].map Prod.fst) = [np] from rfl, List.mem_singleton] at hb
  exact hnp (hb ▸ haX)

theorem keys_append_nodup (X : List (Bytes × Chain)) (np : Bytes)
    (cS : Chain) (hnd : (X.map Prod.fst).Nodup) (hnp : np ∉ X.map Prod.fst) :
    ((X ++ [(np, cS)]).map Prod.fst).Nodup := by
  rw [List.map_append, List.nodup_append]
  refine ⟨hnd, by simp, ?_⟩
  intro a ha hb
  rw [show ([(np, cS)].map Prod.fst) = [np] from rfl, List.mem_singleton] at hb
  exact hnp (hb ▸ ha)

theorem chains_step_recv (l : List (Bytes × Chain)) (Lk P rem np : Bytes)
    (cU cR cS : Chain) (hcU : cU.chainType = .receiving)
    (hcR : cR.chainType = .receiving)
    (hl : ∀ kc ∈ l, kc.1 ≠ P → kc.2.chainType = .receiving) :
    ∀ kc ∈ alistErase (alistUpdate l Lk cU ++ [(rem, cR)]) P ++ [(np, cS)],
      kc.1 ≠ np → kc.2.chainType = .receiving := by
  intro kc hm hne
  rcases List.mem_append.mp hm with hm | hm
  · obtain ⟨hmX, hkP⟩ := alistErase_mem _ _ _ hm
    rcases List.mem_append.mp hmX with hm2 | hm2
    · rcases alistUpdate_mem _ _ _ _ hm2 with he | he
      · rw [he]
        exact hcU
      · exact hl kc he hkP
    · rw [List.mem_singleton] at hm2
      rw [hm2]
      exact hcR
  · rw [List.mem_singleton] at hm
    rw [hm] at hne
    exact absurd rfl hne

theorem chains_step_recv2 (l : List (Bytes × Chain)) (P rem np : Bytes)
    (cR cS : Chain) (hcR : cR.chainType = .receiving)
    (hl : ∀ kc ∈ l, kc.1 ≠ P → kc.2.chainType = .receiving) :
    ∀ kc ∈ alistErase (l ++ [(rem, cR)]) P ++ [(np, cS)],
      kc.1 ≠ np → kc.2.chainType = .receiving := by
  intro kc hm hne
  rcases List.mem_append.mp hm with hm | hm
  · obtain ⟨hmX, hkP⟩ := alistErase_mem _ _ _ hm
    rcases List.mem_append.mp hmX with hm2 | hm2
    · exact hl kc hm2 hkP
    · rw [List.mem_singleton] at hm2
      rw [hm2]
      exact hcR
  · rw [List.mem_singleton] at hm
    rw [hm] at hne
    exact absurd rfl hne

/-- **C5** (amended): the one-SENDING-chain invariant.  A responder
`initSession` produces a session with no chains (so the original claim's
"every SessionEntry produced by initSession has exactly one SENDING chain"
fails for responders); an initiator `initSession` establishes the invariant;
`maybeStepRatchet` and the `fillMessageKeys`-write-back both preserve it. -/
theorem claim_C5_sendingInvariant (hmac dh : Bytes → Bytes → Bytes)
    (hlen : ∀ k d, (hmac k d).length = 32) : C5Amended hmac dh := by
  refine ⟨?_, ?_, ?_, ?_⟩
  · intro oi fe now oek osk tip tep rid s h
    have hred : initSession hmac dh oi fe now false oek (some osk) tip
        (some tep) none rid =
        initFinish hmac dh fe now false oi oek osk tip (some tep) tep tep rid :=
      rfl
    rw [hred] at h
    simp only [initFinish] at h
    rw [(deriveSecrets_ok hmac
      (builtSharedSecret dh oi osk oek tip tep (some tep) false)
      (List.replicate 32 0) (infoBytes "WhisperText") (by simp) hlen).2.2.2] at h
    simp only [Bind.bind, Except.bind, Bool.false_eq_true, if_false, pure,
      Except.pure] at h
    injection h with h2
    rw [← h2]
  · intro oi fe oe now tip tep? tsp rid s h
    have hred : initSession hmac dh oi fe now true (some oe) none tip tep?
        (some tsp) rid =
        initFinish hmac dh fe now true oi (some oe) oe tip tep? tsp oe.pubKey
          rid := rfl
    rw [hred] at h
    simp only [initFinish] at h
    rw [(deriveSecrets_ok hmac
      (builtSharedSecret dh oi oe (some oe) tip tsp tep? true)
      (List.replicate 32 0) (infoBytes "WhisperText") (by simp) hlen).2.2.2] at h
    simp only [Bind.bind, Except.bind, if_true, List.getD_cons_zero,
      List.getD_cons_succ, calculateSendingRatchet] at h
    rw [(deriveSecrets_ok hmac (dh tsp fe.privKey)
      (hkdfT1 hmac (builtSharedSecret dh oi oe (some oe) tip tsp tep? true)
        (List.replicate 32 0) (infoBytes "WhisperText"))
      (infoBytes "WhisperRatchet")
      (by simp only [hkdfT1]; exact hlen _ _) hlen).2.2.2] at h
    simp only [Bind.bind, Except.bind, SessionEntry.addChain, alistLookup,
      List.getD_cons_zero, List.getD_cons_succ, pure, Except.pure] at h
    injection h with h2
    rw [← h2]
    refine ⟨?_, ?_, ?_⟩
    · simp
    · simp [SessionEntry.getChain, alistLookup]
    · intro kc hm hne
      simp only [List.nil_append, List.mem_singleton] at hm
      subst hm
      exact absurd rfl hne
  · intro newKP s remoteKey prevCtr s' hOne hroot hfill hLP hfresh hfresh2 hstep
    obtain ⟨hnd, hsnd, hrecv⟩ := hOne
    cases hrc : s.getChain remoteKey with
    | some c0 =>
      rw [maybeStepRatchet,
        if_pos (show (s.getChain remoteKey).isSome from by rw [hrc]; rfl)]
        at hstep
      injection hstep with h2
      rw [← h2]
      exact ⟨hnd, hsnd, hrecv⟩
    | none =>
      cases hpc : s.getChain s.currentRatchet.ephemeralKeyPair.pubKey with
      | none =>
        rw [hpc] at hsnd
        exact Option.noConfusion hsnd
      | some pc =>
        have hPmem : s.currentRatchet.ephemeralKeyPair.pubKey ∈
            s.chains.map Prod.fst := alistLookup_mem_keys _ _ _ hpc
        have hNP : newKP.pubKey ≠ s.currentRatchet.ephemeralKeyPair.pubKey := by
          intro he
          exact hfresh (he ▸ hPmem)
        cases hL : s.getChain s.currentRatchet.lastRemoteEphemeralKey with
        | some p =>
          obtain ⟨p2, hp2⟩ := hfill p hL
          rw [stepRatchet_eq_ss hmac dh newKP s remoteKey prevCtr p p2 pc hlen
            hroot hrc hL hp2 hpc hLP hfresh hfresh2] at hstep
          injection hstep with h2
          rw [← h2]
          have hLp_mem : (s.currentRatchet.lastRemoteEphemeralKey, p) ∈
              s.chains := alistLookup_mem_pair _ _ _ hL
          have hpt : p.chainType = .receiving := hrecv _ hLp_mem hLP
          have hcl : ({ p2 with
              chainKey := { p2.chainKey with key := none } } : Chain).chainType =
              .receiving := by
            show p2.chainType = .receiving
            rw [fill_chainType hmac p prevCtr p2 hp2]
            exact hpt
          refine ⟨?_, ?_, ?_⟩
          · apply keys_erase_append_nodup
            · exact keys_append_nodup _ _ _
                (by rw [alistUpdate_keys]; exact hnd)
                (by rw [alistUpdate_keys]
                    exact alistLookup_none_not_mem _ _ hrc)
            · rw [List.map_append, alistUpdate_keys]
              intro hmem
              rcases List.mem_append.mp hmem with hm | hm
              · exact hfresh hm
              · simp only [List.map_cons, List.map_nil,
                  List.mem_singleton] at hm
                exact hfresh2 hm
          · show (alistLookup _ _).map Chain.chainType = some ChainType.sending
            rw [alistLookup_append_right]
            · rw [alistLookup, if_pos rfl]
              rfl
            · rw [alistLookup_erase_ne _ _ _ hNP]
              rw [alistLookup_append_right]
              · rw [alistLookup, if_neg (Ne.symm hfresh2)]
                rfl
              · apply alistLookup_eq_none_of_not_mem
                rw [alistUpdate_keys]
                exact hfresh
          · exact chains_step_recv _ _ _ _ _ _ _ _ hcl rfl hrecv
        | none =>
          rw [stepRatchet_eq_ns hmac dh newKP s remoteKey prevCtr pc hlen hroot
            hrc hL hpc hfresh hfresh2] at hstep
          injection hstep with h2
          rw [← h2]
          refine ⟨?_, ?_, ?_⟩
          · apply keys_erase_append_nodup
            · exact keys_append_nodup _ _ _ hnd
                (alistLookup_none_not_mem _ _ hrc)
            · rw [List.map_append]
              intro hmem
              rcases List.mem_append.mp hmem with hm | hm
              · exact hfresh hm
              · simp only [List.map_cons, List.map_nil,
                  List.mem_singleton] at hm
                exact hfresh2 hm
          · show (alistLookup _ _).map Chain.chainType = some ChainType.sending
            rw [alistLookup_append_right]
            · rw [alistLookup, if_pos rfl]
              rfl
            · rw [alistLookup_erase_ne _ _ _ hNP]
              rw [alistLookup_append_right]
              · rw [alistLookup, if_neg (Ne.symm hfresh2)]
                rfl
              · exact alistLookup_eq_none_of_not_mem _ _ hfresh
          · exact chains_step_recv2 _ _ _ _ _ _ rfl hrecv
  · intro s0 k c c' ctr hOne0 hget hfillok
    obtain ⟨hnd, hsnd, hrecv⟩ := hOne0
    have hct : c'.chainType = c.chainType := fill_chainType hmac c ctr c' hfillok
    refine ⟨?_, ?_, ?_⟩
    · show ((alistUpdate s0.chains k c').map Prod.fst).Nodup
      rw [alistUpdate_keys]
      exact hnd
    · show (alistLookup (alistUpdate s0.chains k c')
        s0.currentRatchet.ephemeralKeyPair.pubKey).map Chain.chainType =
        some ChainType.sending
      by_cases hk : k = s0.currentRatchet.ephemeralKeyPair.pubKey
      · subst hk
        rw [alistLookup_update_self _ _ _ _ hget]
        rw [hget] at hsnd
        rw [← hsnd]
        rw [Option.map_some', Option.map_some', hct]
      · rw [alistLookup_update_ne _ _ _ _ (fun he => hk he.symm)]
        exact hsnd
    · intro kc hm hne
      have hm' : kc ∈ alistUpdate s0.chains k c' := hm
      rcases alistUpdate_mem _ _ _ _ hm' with he | he
      · rw [he]
        rw [he] at hne
        show c'.chainType = _
        rw [hct]
        exact hrecv (k, c) (alistLookup_mem_pair _ _ _ hget) hne
      · exact hrecv kc he hne

/-- C5 counterexample: a successful responder `initSession` returns a session
with an empty chain table — zero SENDING chains — refuting "every SessionEntry
produced by initSession has exactly one SENDING chain". -/
theorem claim_C5_counterexample :
    ∃ s, initSession hmacC dhC ⟨[1], [2]⟩ ⟨[3], [4]⟩ 0 false (some ⟨[5], [6]⟩)
      (some ⟨[7], [8]⟩) [9] (some [10]) none 1 = .ok s ∧
      s.chains = [] ∧ ¬ oneSending s := by
  refine ⟨_, rfl, rfl, ?_⟩
  intro h
  have h2 := h.2.1
  exact Option.noConfusion h2

/-- Concrete instance of the amended C5 theorem at the concrete HMAC/DH
stand-ins. -/
theorem claim_C5_witness : C5Amended hmacC dhC :=
  claim_C5_sendingInvariant hmacC dhC hmacC_len

end Libsignal
